import Mathlib

/-!
# Verification of the hubspot_sync synchronization engine

Shallow embedding of the core algorithms of the `hubspot_sync` repository:

* the retrying, rate-limit-aware request clients
  (`HubSpotConnector._request` in `src/utilities/hubspot_api.py` and
  `MixpanelConnector._request` in `src/utilities/mixpanel_api.py`),
* the cursor-based paginated search (`HubSpotConnector.search_objects`),
* the event deduplication / aggregation loop of `src/mixpanel_kpi.py`,
* the windowed delta computation of `src/DB_kpi.py` (`fetch_kpis`),
* the staged batch flush and clear-guard of `src/arr_sync.py`.

Network effects are made explicit: a scripted sequence of per-attempt
outcomes stands for the wire, and each embedded function returns a trace
recording the sleeps performed, the attempts consumed and the final
result, exactly following the control flow of the Python source.
-/

set_option maxRecDepth 10000

namespace HubspotSync

/-! ## Resilient request clients (`_request`)

`HttpResponse` abstracts a `requests.Response`: only the status code and
the optional `Retry-After` header matter to `_request`.  One loop
iteration either yields a response or raises a transport-level
`requests.RequestException`; the scripted function `out : Nat → AttemptOutcome`
gives the outcome of attempt `i` (attempt indices start at 0, as in
`for attempt in range(self.max_retries + 1)`). -/

structure HttpResponse where
  status : Nat
  retryAfter : Option ℚ
  deriving DecidableEq, Repr

inductive AttemptOutcome where
  | response (r : HttpResponse)
  | transportError
  deriving DecidableEq, Repr

inductive ReqResult where
  /-- `return resp`: the response object is handed back to the caller. -/
  | returned (r : HttpResponse)
  /-- `raise` after `resp.raise_for_status()` failed (Mixpanel client only). -/
  | raisedHttp (status : Nat)
  /-- `raise RuntimeError(...)` after the retry loop ends without a return. -/
  | raisedRuntime
  deriving DecidableEq, Repr

structure ReqTrace where
  sleeps : List ℚ
  attempts : Nat
  result : ReqResult
  deriving DecidableEq, Repr

/-- One step of `HubSpotConnector._request`'s retry loop, at attempt index
`attempt`, with `fuel` loop iterations remaining (the Python loop is
`for attempt in range(max_retries + 1)`, so the initial fuel is
`maxRetries + 1`).  A 429 response with retry budget left sleeps the
`Retry-After` header value when present, else `base ^ attempt`, and
continues; any other response is returned; a transport error with budget
left backs off `base ^ attempt` and continues, and otherwise the loop
breaks and `RuntimeError` is raised. -/
def hubspotGo (maxRetries : Nat) (base : ℚ) (out : Nat → AttemptOutcome) :
    Nat → Nat → ReqTrace
  | 0, _ => ⟨[], 0, .raisedRuntime⟩
  | fuel + 1, attempt =>
    match out attempt with
    | .response r =>
      if r.status = 429 ∧ attempt < maxRetries then
        let delay := r.retryAfter.getD (base ^ attempt)
        let t := hubspotGo maxRetries base out fuel (attempt + 1)
        ⟨delay :: t.sleeps, t.attempts + 1, t.result⟩
      else
        ⟨[], 1, .returned r⟩
    | .transportError =>
      if attempt < maxRetries then
        let t := hubspotGo maxRetries base out fuel (attempt + 1)
        ⟨(base ^ attempt) :: t.sleeps, t.attempts + 1, t.result⟩
      else
        ⟨[], 1, .raisedRuntime⟩

/-- `HubSpotConnector._request` (hubspot_api.py, lines 246-286). -/
def hubspotRequest (maxRetries : Nat) (base : ℚ) (out : Nat → AttemptOutcome) :
    ReqTrace :=
  hubspotGo maxRetries base out (maxRetries + 1) 0

/-- One step of `MixpanelConnector._request`'s retry loop
(mixpanel_api.py, lines 64-104).  Unlike the HubSpot client it calls
`resp.raise_for_status()`: a status in `[400, 600)` raises
`requests.HTTPError`; the handler retries only 429 with budget left and
re-raises every other HTTP error. -/
def mixpanelGo (maxRetries : Nat) (base : ℚ) (out : Nat → AttemptOutcome) :
    Nat → Nat → ReqTrace
  | 0, _ => ⟨[], 0, .raisedRuntime⟩
  | fuel + 1, attempt =>
    match out attempt with
    | .response r =>
      if 400 ≤ r.status ∧ r.status < 600 then
        if r.status = 429 ∧ attempt < maxRetries then
          let delay := r.retryAfter.getD (base ^ attempt)
          let t := mixpanelGo maxRetries base out fuel (attempt + 1)
          ⟨delay :: t.sleeps, t.attempts + 1, t.result⟩
        else
          ⟨[], 1, .raisedHttp r.status⟩
      else
        ⟨[], 1, .returned r⟩
    | .transportError =>
      if attempt < maxRetries then
        let t := mixpanelGo maxRetries base out fuel (attempt + 1)
        ⟨(base ^ attempt) :: t.sleeps, t.attempts + 1, t.result⟩
      else
        ⟨[], 1, .raisedRuntime⟩

/-- `MixpanelConnector._request`. -/
def mixpanelRequest (maxRetries : Nat) (base : ℚ) (out : Nat → AttemptOutcome) :
    ReqTrace :=
  mixpanelGo maxRetries base out (maxRetries + 1) 0

/-! ## Paginated search (`HubSpotConnector.search_objects`)

The loop body issues one request per page; the scripted list `pages`
gives the successive responses.  On a non-200 status the loop `break`s
without extending `all_results`; otherwise it extends `all_results` with
the page's items and continues only when `data["paging"]["next"]["after"]`
is truthy.  The function finally returns the dict
`{"results": all_results}` — the caller-visible value carries only the
accumulated items. -/

/-- Python truthiness of an optional string (`None` and `""` are falsy). -/
def strTruthy : Option String → Bool
  | none => false
  | some s => !(s == "")

structure PageResponse where
  status : Nat
  results : List String
  after : Option String
  deriving DecidableEq, Repr

/-- The `while True` loop of `search_objects` (hubspot_api.py, lines
203-242): `acc` is `all_results`, `n` the number of requests issued so
far.  Returns `none` only when the scripted response list is exhausted
while the loop would still be running (no real run reaches this). -/
def searchObjectsGo : List PageResponse → List String → Nat → Option (List String × Nat)
  | [], _, _ => none
  | pg :: rest, acc, n =>
    if pg.status ≠ 200 then
      some (acc, n + 1)
    else
      let acc2 := acc ++ pg.results
      if strTruthy pg.after then
        searchObjectsGo rest acc2 (n + 1)
      else
        some (acc2, n + 1)

/-- The caller-visible return value of `search_objects`: the `"results"`
list of the returned dict.  No status code or page index is part of it. -/
def searchObjects (pages : List PageResponse) : Option (List String) :=
  (searchObjectsGo pages [] 0).map Prod.fst

/-- Number of page requests issued by `search_objects` on this script. -/
def searchPagesRequested (pages : List PageResponse) : Option Nat :=
  (searchObjectsGo pages [] 0).map Prod.snd

/-- The items of a run of pages, concatenated in page order. -/
def flattenResults (pages : List PageResponse) : List String :=
  (pages.map PageResponse.results).flatten

/-! ## Staged batch flush (`src/arr_sync.py`, `main`)

After staging, `main` runs
`for start in range(0, total_rows, BATCH_SIZE): chunk = sheet_updates[start:start+BATCH_SIZE]`
and on a failed `batch_update_values` logs rows `start + 2` through
`start + 2 + len(chunk) - 1` and returns; earlier chunks stay written.
The write outcome of the chunk starting at index `start` is scripted by
`writeOk : Nat → Bool`. -/

/-- The Python `BATCH_SIZE` constant of arr_sync.py. -/
def BATCH_SIZE : Nat := 200

structure FlushTrace where
  /-- `(start, length)` of the chunks successfully written, in order. -/
  written : List (Nat × Nat)
  /-- `(start, length)` of the chunk whose write failed, if any. -/
  failedChunk : Option (Nat × Nat)
  /-- The inclusive sheet-row range reported on failure
  (`start + 2` .. `start + 2 + len(chunk) - 1`). -/
  failedRange : Option (Nat × Nat)
  deriving DecidableEq, Repr

/-- `range(0, total, bs)` as a list of start indices (`bs > 0` in the
program: `BATCH_SIZE = 200`). -/
def chunkStarts (bs total : Nat) : List Nat :=
  (List.range ((total + bs - 1) / bs)).map (· * bs)

/-- The flush loop over the start indices of arr_sync.py, lines 131-141. -/
def flushGo (writeOk : Nat → Bool) (bs : Nat) (l : List String) :
    List Nat → FlushTrace
  | [] => ⟨[], none, none⟩
  | start :: rest =>
    let chunk := (l.drop start).take bs
    if writeOk start then
      let t := flushGo writeOk bs l rest
      ⟨(start, chunk.length) :: t.written, t.failedChunk, t.failedRange⟩
    else
      ⟨[], some (start, chunk.length),
        some (start + 2, start + 2 + chunk.length - 1)⟩

/-- The batch flush of `main` on queue `l` of staged rows (each row a
`range` string paired with its values; only the count matters here, so a
row is represented by its range string). -/
def arrFlush (writeOk : Nat → Bool) (l : List String) : FlushTrace :=
  flushGo writeOk BATCH_SIZE l (chunkStarts BATCH_SIZE l.length)

/-- The write section of `main` (arr_sync.py, lines 125-145): the clear
of the destination range and the chunked flush run only under
`if sheet_updates:`.  Returns whether `clear_selected_columns` was
called, paired with the flush trace (empty when nothing was staged). -/
def arrSyncWriteSection (writeOk : Nat → Bool) (l : List String) :
    Bool × FlushTrace :=
  if l.isEmpty then (false, ⟨[], none, none⟩)
  else (true, arrFlush writeOk l)

/-! ## Windowed delta computation (`src/DB_kpi.py`, `fetch_kpis`)

The SQL window query partitions `business_review_kpis` rows by
`(organization_id, kpi)` after filtering on
`run_timestamp > cutoff`, `accounting_year_parameter = current year` and
a fixed KPI allow-list, ranks each partition ascending and descending by
`run_timestamp`, and emits per partition
`first_value` (value at ascending rank 1), `last_value` (value at
descending rank 1) and `delta = last_value - first_value`.
`ROW_NUMBER` breaks timestamp ties arbitrarily; the embedding commits to
the first listed extremal row, which is a legitimate realization and is
irrelevant whenever the partition's timestamps are distinct. -/

structure SnapshotRow where
  orgId : String
  orgName : String
  kpi : String
  value : ℚ
  ts : ℤ
  accountingYear : ℤ
  deriving DecidableEq, Repr

/-- The KPI allow-list of the SQL `kpi IN (...)` clause. -/
def kpiAllowed (k : String) : Bool :=
  k == "Number of log entries" ||
    k == "Number of log entries created via bulk import"

/-- The `WHERE` clause of the `kpi_window` CTE. -/
def rowSelected (cutoff year : ℤ) (r : SnapshotRow) : Bool :=
  decide (cutoff < r.ts) && decide (r.accountingYear = year) && kpiAllowed r.kpi

/-- The partition of the selected rows belonging to `(oid, kpi)`. -/
def kpiPartition (cutoff year : ℤ) (oid kpi : String) (rows : List SnapshotRow) :
    List SnapshotRow :=
  rows.filter fun r =>
    rowSelected cutoff year r && (r.orgId == oid) && (r.kpi == kpi)

/-- One comparison step of the ascending ranking: keep the earlier row,
preferring the incumbent on ties. -/
def minTsStep (acc : Option SnapshotRow) (r : SnapshotRow) : Option SnapshotRow :=
  match acc with
  | none => some r
  | some b => if r.ts < b.ts then some r else some b

/-- One comparison step of the descending ranking: keep the later row,
preferring the incumbent on ties. -/
def maxTsStep (acc : Option SnapshotRow) (r : SnapshotRow) : Option SnapshotRow :=
  match acc with
  | none => some r
  | some b => if b.ts < r.ts then some r else some b

/-- The row at ascending rank 1 (minimal `ts`; first listed on ties). -/
def rnAsc1 (rows : List SnapshotRow) : Option SnapshotRow :=
  rows.foldl minTsStep none

/-- The row at descending rank 1 (maximal `ts`; first listed on ties). -/
def rnDesc1 (rows : List SnapshotRow) : Option SnapshotRow :=
  rows.foldl maxTsStep none

/-- The group of window rows belonging to the output key
`(oid, oname, kpi)` — the outer query's
`GROUP BY organization_id, organization_name, kpi` granularity.  The
ranking partition (`PARTITION BY organization_id, kpi`) is coarser: it
ignores the name, so a partition whose rows carry several names is
split across groups. -/
def kpiGroup (cutoff year : ℤ) (oid oname kpi : String)
    (rows : List SnapshotRow) : List SnapshotRow :=
  (kpiPartition cutoff year oid kpi rows).filter fun r => r.orgName == oname

/-- `MAX(CASE WHEN rn = 1 THEN value END)` over one name-group: the
partition's rank-1 row's value when that row falls into this group,
else SQL `NULL`. -/
def groupExtremal (extremal : Option SnapshotRow) (oname : String) : Option ℚ :=
  match extremal with
  | some r => if r.orgName == oname then some r.value else none
  | none => none

/-- One output row of `fetch_kpis` for key `(oid, oname, kpi)`:
`none` when the group has no window row (`GROUP BY` emits no group),
otherwise `(first_value, last_value, delta)`, each `NULL`-able — the
ascending and descending rank-1 rows are computed over the whole
`(oid, kpi)` partition, so a group not containing them gets `NULL`, and
`delta` is `NULL` whenever an operand is. -/
def fetchKpiDelta (cutoff year : ℤ) (oid oname kpi : String)
    (rows : List SnapshotRow) : Option (Option ℚ × Option ℚ × Option ℚ) :=
  match kpiGroup cutoff year oid oname kpi rows with
  | [] => none
  | _ :: _ =>
    let first? := groupExtremal (rnAsc1 (kpiPartition cutoff year oid kpi rows)) oname
    let last? := groupExtremal (rnDesc1 (kpiPartition cutoff year oid kpi rows)) oname
    some (first?, last?,
      match first?, last? with
      | some f, some l => some (l - f)
      | _, _ => none)

/-! ## Event deduplication and aggregation (`src/mixpanel_kpi.py`, `main`)

The aggregation state of `main` consists of
`aggregated : Dict[event_name, Dict[org_id, {"urls": [...], "count": n}]]`
and `seen_insert_ids : Dict[event_name, Set[insert_id]]`.  Python dicts
are embedded as insertion-ordered association lists with unique keys. -/

structure MpEvent where
  name : String
  insertId : Option String
  orgId : Option String
  url : Option String
  deriving DecidableEq, Repr

/-- `cozero_org_id in (None, "", "UNKNOWN")` (mixpanel_kpi.py, line 73). -/
def orgInvalid : Option String → Bool
  | none => true
  | some s => s == "" || s == "UNKNOWN"

structure Bucket where
  urls : List String
  count : Nat
  deriving DecidableEq, Repr

def Bucket.empty : Bucket := ⟨[], 0⟩

/-- Association-list lookup (Python `d.get(k)` / `d[k]`). -/
def alookup {β : Type} : List (String × β) → String → Option β
  | [], _ => none
  | (k, v) :: t, key => if k = key then some v else alookup t key

/-- Update the value at an existing key (Python `d[k] = f(d[k])`). -/
def aupdate {β : Type} (f : β → β) : List (String × β) → String → List (String × β)
  | [], _ => []
  | (k, v) :: t, key =>
    if k = key then (k, f v) :: t else (k, v) :: aupdate f t key

/-- `entry = d.setdefault(key, default)`: appends the key with the
default value when absent (Python dicts append new keys at the end). -/
def asetdefault {β : Type} (l : List (String × β)) (key : String) (d : β) :
    List (String × β) :=
  match alookup l key with
  | some _ => l
  | none => l ++ [(key, d)]

abbrev OrgTable := List (String × Bucket)
abbrev Agg := List (String × OrgTable)
abbrev Seen := List (String × List String)

structure AggState where
  agg : Agg
  seen : Seen
  deriving DecidableEq, Repr

/-- The initial `aggregated` dict: one empty bucket per known org per
tracked event (mixpanel_kpi.py, lines 40-49). -/
def initAgg (events orgs : List String) : Agg :=
  events.map fun e => (e, orgs.map fun o => (o, Bucket.empty))

/-- The initial `seen_insert_ids` dict (line 53). -/
def initSeen (events : List String) : Seen :=
  events.map fun e => (e, [])

def initState (events orgs : List String) : AggState :=
  ⟨initAgg events orgs, initSeen events⟩

/-- Bucket mutation for one surviving event: append the url when truthy,
then increment the count (lines 89-93). -/
def addToBucket (url : Option String) (b : Bucket) : Bucket :=
  ⟨if strTruthy url then b.urls ++ [url.getD ""] else b.urls, b.count + 1⟩

/-- `aggregated[event_name].setdefault(org, empty)` followed by the
bucket mutation (lines 79-93). -/
def bumpOrg (org : String) (url : Option String) (tbl : OrgTable) : OrgTable :=
  aupdate (addToBucket url) (asetdefault tbl org Bucket.empty) org

/-- The body of the event loop (mixpanel_kpi.py, lines 59-93) for one
incoming event record. -/
def stepEvent (st : AggState) (ev : MpEvent) : AggState :=
  match alookup st.agg ev.name with
  | none => st
  | some _ =>
    if strTruthy ev.insertId then
      let idv := ev.insertId.getD ""
      match alookup st.seen ev.name with
      | none => st
      | some ids =>
        if idv ∈ ids then st
        else
          let st1 : AggState :=
            ⟨st.agg, aupdate (fun l => l ++ [idv]) st.seen ev.name⟩
          if orgInvalid ev.orgId then st1
          else
            ⟨aupdate (bumpOrg (ev.orgId.getD "") ev.url) st1.agg ev.name,
              st1.seen⟩
    else
      if orgInvalid ev.orgId then st
      else
        ⟨aupdate (bumpOrg (ev.orgId.getD "") ev.url) st.agg ev.name, st.seen⟩

/-- The whole event loop over a finite stream. -/
def runAgg (events orgs : List String) (stream : List MpEvent) : AggState :=
  stream.foldl stepEvent (initState events orgs)

/-! ### Specification functions for the final state

`prevIds p e` lists the truthy insert ids of the events named `e` in the
prefix `p` — membership in it is exactly membership in
`seen_insert_ids[e]` after processing `p` (ids are recorded before the
org-validity check, so invalid-org events contribute).  An event
*survives* for its bucket when it is not discarded as a duplicate and
carries a valid org. -/

def eventIdTruthy (x : MpEvent) : Bool := strTruthy x.insertId

def prevIds (p : List MpEvent) (e : String) : List String :=
  (p.filter fun x => x.name == e && eventIdTruthy x).map fun x => x.insertId.getD ""

/-- The event is not discarded by the duplicate check against the given
earlier prefix, and carries a valid org. -/
def survivesAfter (p : List MpEvent) (ev : MpEvent) : Bool :=
  (!eventIdTruthy ev || !(decide (ev.insertId.getD "" ∈ prevIds p ev.name)))
    && !orgInvalid ev.orgId

/-- The org string an event is attributed to (`str(cozero_org_id)`). -/
def orgStr (ev : MpEvent) : String := ev.orgId.getD ""

/-- The surviving events of `rest` named `e`, when the events of `p`
already preceded them in the stream. -/
def survGo (e : String) (p : List MpEvent) : List MpEvent → List MpEvent
  | [] => []
  | ev :: rest =>
    let tail := survGo e (p ++ [ev]) rest
    if ev.name == e && survivesAfter p ev then ev :: tail else tail

/-- The events of the stream named `e` that survive both the duplicate
check and the org-validity check, in stream order. -/
def survivorsOf (stream : List MpEvent) (e : String) : List MpEvent :=
  survGo e [] stream

/-- The surviving events attributed to bucket `(e, o)`. -/
def survivors (stream : List MpEvent) (e o : String) : List MpEvent :=
  (survivorsOf stream e).filter fun ev => orgStr ev == o

/-- The count the bucket `(e, o)` holds after the stream. -/
def survCount (stream : List MpEvent) (e o : String) : Nat :=
  (survivors stream e o).length

/-- The url samples the bucket `(e, o)` holds after the stream. -/
def survUrls (stream : List MpEvent) (e o : String) : List String :=
  ((survivors stream e o).filter fun ev => strTruthy ev.url).map
    fun ev => ev.url.getD ""

/-- The orgs that own a surviving event named `e`, in stream order. -/
def survOrgs (stream : List MpEvent) (e : String) : List String :=
  (survivorsOf stream e).map orgStr

/-- The order-preserving set abstraction of `seen_insert_ids[e]`: a set
represented as the list of its members in first-insertion order. -/
def seenList (ids : List String) : List String :=
  ids.foldl (fun acc i => if i ∈ acc then acc else acc ++ [i]) []

/-- The events of the stream belonging to bucket `(e, o)`: named `e`
with valid org `o`. -/
def bucketEvents (stream : List MpEvent) (e o : String) : List MpEvent :=
  stream.filter fun ev => ev.name == e && !orgInvalid ev.orgId && (orgStr ev == o)

/-- The value the claim prescribes for bucket `(e, o)`: the number of
distinct unique identifiers among the bucket's id-carrying events plus
the number of its identifier-less events.  Stated from the claim's words
for comparison against the code's aggregation. -/
def claimedBucketCount (stream : List MpEvent) (e o : String) : Nat :=
  (((bucketEvents stream e o).filter eventIdTruthy).map
      fun ev => ev.insertId.getD "").toFinset.card +
    ((bucketEvents stream e o).filter fun ev => !eventIdTruthy ev).length

/-- The id-carrying events of the stream named `e`, their ids. -/
def idsOf (stream : List MpEvent) (e : String) : List String :=
  prevIds stream e

/-- The invariant tying the loop state after a processed prefix `p` to
the declarative description of the aggregation:
the `aggregated` keys are exactly the tracked event names;
`seen_insert_ids[e]` holds the first-occurrence dedup of the truthy ids
of the `e`-named prefix events; and each event's org table has
duplicate-free keys covering the pre-seeded orgs and the surviving
orgs, every bucket holding the survivor urls and survivor count. -/
def AggInv (events orgs : List String) (p : List MpEvent) (st : AggState) : Prop :=
  st.agg.map Prod.fst = events ∧
  (∀ e, e ∈ events → alookup st.seen e = some (seenList (prevIds p e))) ∧
  (∀ e tbl, alookup st.agg e = some tbl →
    (tbl.map Prod.fst).Nodup ∧
    (∀ o, (alookup tbl o).isSome = true ↔ (o ∈ orgs ∨ o ∈ survOrgs p e)) ∧
    (∀ o b, alookup tbl o = some b → b = ⟨survUrls p e o, survCount p e o⟩))

/-! ### Flush (`mixpanel_kpi.py`, lines 98-112)

After the event loop, `main` walks `MIXPANEL_EVENT_TO_HUBSPOT_PROPERTY`
and, per `(event_name, org)` pair of `aggregated`, builds the
`property_updates` dict: for a string mapping the bucket count under
that property name; for a keyword mapping, per rule, the number of
collected urls containing the keyword as a substring. -/

/-- `needle` is a prefix of `hay` (character lists). -/
def leadsWith : List Char → List Char → Bool
  | [], _ => true
  | _ :: _, [] => false
  | a :: as, b :: bs => a == b && leadsWith as bs

/-- `needle` occurs as a contiguous run inside `hay` — Python's
substring test `needle in hay` on strings. -/
def occursIn (needle : List Char) : List Char → Bool
  | [] => needle.isEmpty
  | b :: bs => leadsWith needle (b :: bs) || occursIn needle bs

/-- Python `keyword in url` (line 110). -/
def strContains (hay needle : String) : Bool :=
  occursIn needle.data hay.data

/-- `sum(1 for url in urls if keyword in url)` (line 110). -/
def countContains (keyword : String) (urls : List String) : Nat :=
  (urls.filter fun u => strContains u keyword).length

/-- The two shapes of `MIXPANEL_EVENT_TO_HUBSPOT_PROPERTY` values: a
plain property name, or a keyword→property rule dict. -/
inductive PropMapping where
  | direct (prop : String)
  | keywords (rules : List (String × String))
  deriving DecidableEq, Repr

/-- The `MIXPANEL_EVENT_TO_HUBSPOT_PROPERTY` constant
(mixpanel_kpi.py, lines 22-33). -/
def MIXPANEL_CONFIG : List (String × PropMapping) :=
  [("log-entry - create", .direct "manual_log_entries_past_90_days"),
   ("api-call", .direct "api_calls_past_90_days"),
   ("bulk-import - ok", .direct "bulk_imports_requested_past_90_days"),
   ("products - ok", .direct "bulk_imports_uploaded_past_90_days"),
   ("Session start", .direct "user_sessions_past_90_days"),
   ("page-view", .keywords [("dashboard", "dashboard_views_past_90_days")])]

/-- The `property_updates` dict built for one `(event, org)` pair
(lines 103-112). -/
def propertyUpdates (m : PropMapping) (b : Bucket) : List (String × Nat) :=
  match m with
  | .direct p => [(p, b.count)]
  | .keywords rules => rules.map fun kp => (kp.2, countContains kp.1 b.urls)

/-- All `(event_name, org_id, property_updates)` triples the flush loop
builds, in iteration order (`entries = aggregated.get(event_name, {})`). -/
def flushOutputs (config : List (String × PropMapping)) (agg : Agg) :
    List (String × String × List (String × Nat)) :=
  (config.map fun em =>
    (((alookup agg em.1).getD []).map fun ob => (em.1, ob.1, propertyUpdates em.2 ob.2))).flatten

/-! ### Entity resolution cache (`mixpanel_kpi.py`, lines 96-134)

`hubspot_cache` maps a source org id to the resolved HubSpot company id,
or `None` after a failed search / empty result.  Per `(event, org)`
iteration: a cached org is never looked up again; an uncached org
triggers exactly one `search_company` call whose outcome — an exception,
a found id, or no result — is scripted by the oracle; the outcome
(including misses) is cached; a falsy resolved id skips only that
iteration's upsert. -/

inductive LookupOutcome where
  | raised
  | found (hubId : String)
  | notFound
  deriving DecidableEq, Repr

/-- What the `except`/result-extraction block stores in the cache. -/
def cacheValue : LookupOutcome → Option String
  | .raised => none
  | .found i => some i
  | .notFound => none

inductive ItemOutcome where
  | skipped
  | upserted (hubId : String)
  deriving DecidableEq, Repr

def outcomeOf (v : Option String) : ItemOutcome :=
  if strTruthy v then .upserted (v.getD "") else .skipped

structure ResolveTrace where
  /-- Org ids for which `search_company` was called, in call order. -/
  lookups : List String
  /-- Per processed `(event, org)` iteration: the org and whether its
  upsert was attempted or skipped. -/
  outcomes : List (String × ItemOutcome)
  /-- The final `hubspot_cache`. -/
  cache : List (String × Option String)
  deriving DecidableEq, Repr

/-- The upsert loop of `main` restricted to resolution bookkeeping:
`items` is the sequence of org ids in iteration order (one per
`(event_name, org)` pair of the flush loop). -/
def resolveLoop (oracle : String → LookupOutcome) :
    List String → List (String × Option String) → ResolveTrace
  | [], cache => ⟨[], [], cache⟩
  | org :: rest, cache =>
    match alookup cache org with
    | some v =>
      let t := resolveLoop oracle rest cache
      ⟨t.lookups, (org, outcomeOf v) :: t.outcomes, t.cache⟩
    | none =>
      let v := cacheValue (oracle org)
      let t := resolveLoop oracle rest (cache ++ [(org, v)])
      ⟨org :: t.lookups, (org, outcomeOf v) :: t.outcomes, t.cache⟩

/-- One run's resolution trace, starting from the empty cache. -/
def resolveRun (oracle : String → LookupOutcome) (items : List String) :
    ResolveTrace :=
  resolveLoop oracle items []

/-! ## Theorems -/

/-! ### Pagination (C1) -/

/-- If the first `k` scripted pages succeed with a truthy continuation
token and page `k` has a non-200 status, the loop returns the
accumulated items of the first `k` pages and has issued `k + 1`
requests. -/
theorem searchObjectsGo_firstFail : ∀ (k : Nat) (pages : List PageResponse)
    (acc : List String) (n : Nat),
    (∀ i, i < k → ∃ pg, pages[i]? = some pg ∧ pg.status = 200 ∧
      strTruthy pg.after = true) →
    ∀ pg, pages[k]? = some pg → pg.status ≠ 200 →
    searchObjectsGo pages acc n =
      some (acc ++ flattenResults (pages.take k), n + k + 1) := by
  intro k
  induction k with
  | zero =>
    intro pages acc n _ pg hpg hbad
    match pages, hpg with
    | p :: rest, hpg =>
      have hp : p = pg := by simpa using hpg
      subst hp
      simp [searchObjectsGo, hbad, flattenResults]
  | succ k ih =>
    intro pages acc n hok pg hpg hbad
    cases pages with
    | nil => simp at hpg
    | cons q rest =>
      obtain ⟨p0, hp0, hst, haf⟩ := hok 0 (Nat.succ_pos k)
      have hq : p0 = q := (by simpa using hp0 : q = p0).symm
      subst hq
      have hrec := ih rest (acc ++ p0.results) (n + 1)
        (fun i hi => by simpa using hok (i + 1) (Nat.succ_lt_succ hi))
        pg (by simpa using hpg) hbad
      simp only [searchObjectsGo, hst, haf, if_true]
      rw [if_neg (by simp), hrec]
      have hn : n + 1 + k + 1 = n + (k + 1) + 1 := by omega
      rw [hn]
      simp [flattenResults, List.take_succ_cons]

/-- C1: the claim is false on the code.  A run whose second page returns
status 500 hands the caller `{"results": [items of page 1]}` — exactly
the value a fully exhausted one-page run returns.  No page index or
status reaches the caller, and the partially accumulated items are
returned as a complete success result. -/
theorem c1_counterexample :
    searchObjects [⟨200, ["i1", "i2"], some "cursor"⟩, ⟨500, ["x"], none⟩]
        = some ["i1", "i2"] ∧
    searchObjects [⟨200, ["i1", "i2"], none⟩] = some ["i1", "i2"] :=
  ⟨rfl, rfl⟩

/-- C1 (amended): a non-success response at any page stops the
pagination — no later page is requested — but the accumulated items of
the earlier pages are returned to the caller in the same `results`-only
shape as a complete success; the failing page's index and status are
only logged, never part of the returned value. -/
theorem c1_abort_returns_partial_as_success (pages : List PageResponse) (k : Nat)
    (hok : ∀ i, i < k → ∃ pg, pages[i]? = some pg ∧ pg.status = 200 ∧
      strTruthy pg.after = true)
    (pg : PageResponse) (hpg : pages[k]? = some pg) (hbad : pg.status ≠ 200) :
    searchObjects pages = some (flattenResults (pages.take k)) ∧
    searchPagesRequested pages = some (k + 1) := by
  have h := searchObjectsGo_firstFail k pages [] 0 hok pg hpg hbad
  constructor
  · simp [searchObjects, h]
  · simp [searchPagesRequested, h]

/-- Witness for C1 (amended) at the concrete aborting script. -/
theorem c1_abort_witness :
    searchObjects [⟨200, ["i1", "i2"], some "cursor"⟩, ⟨503, ["x"], some "c2"⟩,
        ⟨200, ["y"], none⟩] =
      some (flattenResults ([⟨200, ["i1", "i2"], some "cursor"⟩,
        ⟨503, ["x"], some "c2"⟩, ⟨200, ["y"], none⟩].take 1)) ∧
    searchPagesRequested [⟨200, ["i1", "i2"], some "cursor"⟩,
        ⟨503, ["x"], some "c2"⟩, ⟨200, ["y"], none⟩] = some 2 :=
  c1_abort_returns_partial_as_success _ 1
    (by
      intro i hi
      match i, hi with
      | 0, _ => exact ⟨_, rfl, rfl, rfl⟩)
    ⟨503, ["x"], some "c2"⟩ rfl (by decide)

/-! ### Non-retryable HTTP statuses (C2) -/

/-- C2: the claim is false on the code.  The Mixpanel client's
`_request` calls `resp.raise_for_status()`, so a 500 response is raised
as `requests.HTTPError`, not returned for status inspection. -/
theorem c2_counterexample :
    (mixpanelRequest 3 (3/2) (fun _ => .response ⟨500, none⟩)).result =
      .raisedHttp 500 := by decide

/-- C2 (amended): the HubSpot client returns every non-429 response —
including 4xx and 5xx — to the caller for status inspection without
raising; the Mixpanel client instead raises a non-429 HTTP error status
(4xx other than 429, or 5xx) as an exception. -/
theorem c2_error_status_handling :
    (∀ (mr : Nat) (base : ℚ) (out : Nat → AttemptOutcome) (fuel a : Nat)
        (r : HttpResponse), out a = .response r → r.status ≠ 429 →
        hubspotGo mr base out (fuel + 1) a = ⟨[], 1, .returned r⟩) ∧
    (∀ (mr : Nat) (base : ℚ) (out : Nat → AttemptOutcome) (fuel a : Nat)
        (r : HttpResponse), out a = .response r →
        400 ≤ r.status → r.status < 600 → r.status ≠ 429 →
        mixpanelGo mr base out (fuel + 1) a = ⟨[], 1, .raisedHttp r.status⟩) := by
  constructor
  · intro mr base out fuel a r hout hne
    simp [hubspotGo, hout, hne]
  · intro mr base out fuel a r hout h4 h6 hne
    simp [mixpanelGo, hout, hne, h4, h6]

/-- Witness for C2 (amended): a 404 is returned by the HubSpot client
at once; a 500 is raised by the Mixpanel client at once. -/
theorem c2_witness :
    hubspotGo 3 (3/2) (fun _ => .response ⟨404, none⟩) 4 0 =
      ⟨[], 1, .returned ⟨404, none⟩⟩ ∧
    mixpanelGo 3 (3/2) (fun _ => .response ⟨500, none⟩) 4 0 =
      ⟨[], 1, .raisedHttp 500⟩ :=
  ⟨c2_error_status_handling.1 3 (3/2) _ 3 0 _ rfl (by decide),
   c2_error_status_handling.2 3 (3/2) _ 3 0 _ rfl (by decide) (by decide) (by decide)⟩

/-! ### Rate-limit retry and backoff (C3) -/

/-- The retry loop consumes at most `fuel` attempts. -/
theorem hubspotGo_attempts_le (mr : Nat) (base : ℚ) (out : Nat → AttemptOutcome) :
    ∀ (fuel a : Nat), (hubspotGo mr base out fuel a).attempts ≤ fuel := by
  intro fuel
  induction fuel with
  | zero => intro a; simp [hubspotGo]
  | succ n ih =>
    intro a
    simp only [hubspotGo]
    cases h : out a with
    | response r =>
      by_cases hc : r.status = 429 ∧ a < mr
      · simpa [hc] using Nat.succ_le_succ (ih (a + 1))
      · simp [hc]
    | transportError =>
      by_cases hc : a < mr
      · simpa [hc] using Nat.succ_le_succ (ih (a + 1))
      · simp [hc]

/-- The Mixpanel retry loop consumes at most `fuel` attempts. -/
theorem mixpanelGo_attempts_le (mr : Nat) (base : ℚ) (out : Nat → AttemptOutcome) :
    ∀ (fuel a : Nat), (mixpanelGo mr base out fuel a).attempts ≤ fuel := by
  intro fuel
  induction fuel with
  | zero => intro a; simp [mixpanelGo]
  | succ n ih =>
    intro a
    simp only [mixpanelGo]
    cases h : out a with
    | response r =>
      by_cases h46 : 400 ≤ r.status ∧ r.status < 600
      · by_cases hc : r.status = 429 ∧ a < mr
        · simpa [h46, hc] using Nat.succ_le_succ (ih (a + 1))
        · simp [h46, hc]
      · simp [h46]
    | transportError =>
      by_cases hc : a < mr
      · simpa [hc] using Nat.succ_le_succ (ih (a + 1))
      · simp [hc]

/-- C3: on a 429 with retry budget remaining, both clients sleep the
`Retry-After` header value verbatim when present and `base ^ attempt`
(attempt index from 0) otherwise; at most `max_retries + 1` attempts are
made (default 3 retries, 4 attempts); and with the default base 1.5 the
successive backoff delays `[1, 3/2, 9/4]` are not constant, while
`Retry-After: 2` yields sleeps of exactly 2 seconds. -/
theorem c3_rate_limit_retry :
    (∀ (mr : Nat) (base : ℚ) (out : Nat → AttemptOutcome) (fuel a : Nat)
        (r : HttpResponse), out a = .response r → r.status = 429 → a < mr →
        (hubspotGo mr base out (fuel + 1) a).sleeps =
          r.retryAfter.getD (base ^ a) :: (hubspotGo mr base out fuel (a + 1)).sleeps) ∧
    (∀ (mr : Nat) (base : ℚ) (out : Nat → AttemptOutcome) (fuel a : Nat)
        (r : HttpResponse), out a = .response r → r.status = 429 → a < mr →
        (mixpanelGo mr base out (fuel + 1) a).sleeps =
          r.retryAfter.getD (base ^ a) :: (mixpanelGo mr base out fuel (a + 1)).sleeps) ∧
    (∀ (mr : Nat) (base : ℚ) (out : Nat → AttemptOutcome),
        (hubspotRequest mr base out).attempts ≤ mr + 1) ∧
    (∀ (mr : Nat) (base : ℚ) (out : Nat → AttemptOutcome),
        (mixpanelRequest mr base out).attempts ≤ mr + 1) ∧
    (hubspotRequest 3 (3/2) (fun _ => .response ⟨429, some 2⟩)).sleeps = [2, 2, 2] ∧
    (hubspotRequest 3 (3/2) (fun _ => .response ⟨429, none⟩)).sleeps = [1, 3/2, 9/4] ∧
    (1 : ℚ) ≠ 3/2 ∧ (3/2 : ℚ) ≠ 9/4 := by
  refine ⟨?_, ?_, ?_, ?_, ?_, ?_, by norm_num, by norm_num⟩
  · intro mr base out fuel a r hout hst hlt
    simp [hubspotGo, hout, hst, hlt]
  · intro mr base out fuel a r hout hst hlt
    simp [mixpanelGo, hout, hst, hlt]
  · intro mr base out
    exact hubspotGo_attempts_le mr base out (mr + 1) 0
  · intro mr base out
    exact mixpanelGo_attempts_le mr base out (mr + 1) 0
  · simp [hubspotRequest, hubspotGo]
  · simp [hubspotRequest, hubspotGo]
    norm_num

/-- Witness for C3 at a concrete 429 with `Retry-After: 2`. -/
theorem c3_witness :
    (hubspotGo 3 (3/2) (fun _ => .response ⟨429, some 2⟩) 4 0).sleeps =
      (Option.some (2 : ℚ)).getD ((3/2 : ℚ) ^ 0) ::
        (hubspotGo 3 (3/2) (fun _ => .response ⟨429, some 2⟩) 3 1).sleeps :=
  c3_rate_limit_retry.1 3 (3/2) _ 3 0 ⟨429, some 2⟩ rfl rfl (by decide)

/-! ### Batch flush (C6) and clear guard (C10) -/

/-- When every chunk write succeeds, the flush attempts every chunk in
start order with no failure report. -/
theorem flushGo_all_ok (writeOk : Nat → Bool) (bs : Nat) (l : List String) :
    ∀ starts : List Nat, (∀ s ∈ starts, writeOk s = true) →
    flushGo writeOk bs l starts =
      ⟨starts.map fun s => (s, ((l.drop s).take bs).length), none, none⟩ := by
  intro starts
  induction starts with
  | nil => intro _; rfl
  | cons s t ih =>
    intro h
    simp [flushGo, h s (List.mem_cons_self s t),
      ih fun x hx => h x (List.mem_cons_of_mem s hx)]

/-- When the chunks before `s` succeed and the chunk at start `s` fails,
the flush writes exactly the earlier chunks, never attempts the chunks
after `s`, and reports the failed chunk and its inclusive row range. -/
theorem flushGo_first_fail (writeOk : Nat → Bool) (bs : Nat) (l : List String) :
    ∀ (starts1 : List Nat) (s : Nat) (starts2 : List Nat),
    (∀ x ∈ starts1, writeOk x = true) → writeOk s = false →
    flushGo writeOk bs l (starts1 ++ s :: starts2) =
      ⟨starts1.map fun x => (x, ((l.drop x).take bs).length),
        some (s, ((l.drop s).take bs).length),
        some (s + 2, s + 2 + ((l.drop s).take bs).length - 1)⟩ := by
  intro starts1
  induction starts1 with
  | nil =>
    intro s starts2 _ hfail
    simp [flushGo, hfail]
  | cons x t ih =>
    intro s starts2 hok hfail
    have hrec := ih s starts2 (fun y hy => hok y (List.mem_cons_of_mem x hy)) hfail
    simp [flushGo, hok x (List.mem_cons_self x t), List.append_eq, hrec]

/-- Splitting `range(0, total, bs)` at the `k`-th start when the `k`-th
chunk is non-empty. -/
theorem chunkStarts_split (bs total k : Nat) (hbs : 0 < bs)
    (hk : k * bs < total) :
    ∃ rest, chunkStarts bs total =
      ((List.range k).map fun j => j * bs) ++ (k * bs) :: rest := by
  have hn : k + 1 ≤ (total + bs - 1) / bs := by
    rw [Nat.le_div_iff_mul_le hbs]
    have : k * bs + 1 ≤ total := hk
    calc (k + 1) * bs = k * bs + bs := by ring
    _ ≤ total + bs - 1 := by omega
  obtain ⟨m, hm⟩ := Nat.exists_eq_add_of_le hn
  refine ⟨((List.range m).map fun j => (k + 1 + j) * bs), ?_⟩
  rw [chunkStarts, hm, List.range_add, List.range_succ]
  simp [Function.comp]

/-- C6: the batch writer flushes in fixed chunks of 200 in increasing
row order (450 rows give chunks of 200, 200 and 50); a failing chunk
stops the flush — later chunks are never attempted, the chunks already
flushed are kept, and the reported failed range is the inclusive sheet
row range of the failed chunk (the second of three chunks reports rows
202-401); in general, if the first `k` chunk writes succeed and chunk
`k` fails, exactly the first `k` chunks are written and the report
covers chunk `k`'s rows. -/
theorem c6_batch_flush :
    arrFlush (fun _ => true) (List.replicate 450 "row") =
      ⟨[(0, 200), (200, 200), (400, 50)], none, none⟩ ∧
    arrFlush (fun s => !(s == 200)) (List.replicate 450 "row") =
      ⟨[(0, 200)], some (200, 200), some (202, 401)⟩ ∧
    (∀ (writeOk : Nat → Bool) (l : List String) (k : Nat),
        k * BATCH_SIZE < l.length →
        (∀ j, j < k → writeOk (j * BATCH_SIZE) = true) →
        writeOk (k * BATCH_SIZE) = false →
        arrFlush writeOk l =
          ⟨(List.range k).map fun j =>
              (j * BATCH_SIZE, ((l.drop (j * BATCH_SIZE)).take BATCH_SIZE).length),
            some (k * BATCH_SIZE, ((l.drop (k * BATCH_SIZE)).take BATCH_SIZE).length),
            some (k * BATCH_SIZE + 2,
              k * BATCH_SIZE + 2 + ((l.drop (k * BATCH_SIZE)).take BATCH_SIZE).length - 1)⟩) := by
  refine ⟨by decide, by decide, ?_⟩
  intro writeOk l k hk hok hfail
  obtain ⟨rest, hsplit⟩ := chunkStarts_split BATCH_SIZE l.length k (by decide) hk
  rw [arrFlush, hsplit]
  rw [flushGo_first_fail writeOk BATCH_SIZE l _ _ rest ?_ hfail]
  · simp [List.map_map, Function.comp]
  · intro x hx
    obtain ⟨j, hj, rfl⟩ := List.mem_map.mp hx
    exact hok j (List.mem_range.mp hj)

/-- Witness for C6's general clause: 450 rows, the second chunk fails. -/
theorem c6_witness :
    arrFlush (fun s => !(s == 200)) (List.replicate 450 "row") =
      ⟨(List.range 1).map fun j =>
          (j * BATCH_SIZE,
            (((List.replicate 450 "row").drop (j * BATCH_SIZE)).take BATCH_SIZE).length),
        some (1 * BATCH_SIZE,
          (((List.replicate 450 "row").drop (1 * BATCH_SIZE)).take BATCH_SIZE).length),
        some (1 * BATCH_SIZE + 2,
          1 * BATCH_SIZE + 2 +
            (((List.replicate 450 "row").drop (1 * BATCH_SIZE)).take BATCH_SIZE).length - 1)⟩ :=
  c6_batch_flush.2.2 (fun s => !(s == 200)) (List.replicate 450 "row") 1
    (by decide) (by intro j hj; interval_cases j; decide) (by decide)

/-- C10: the destination range is cleared exactly when at least one row
was staged; on an empty run neither the clear nor any chunk write
happens, so the sheet's previous contents are untouched. -/
theorem c10_clear_only_when_staged :
    ∀ (writeOk : Nat → Bool) (l : List String),
      ((arrSyncWriteSection writeOk l).1 = true ↔ l ≠ []) ∧
      arrSyncWriteSection writeOk [] = (false, ⟨[], none, none⟩) := by
  intro writeOk l
  refine ⟨?_, rfl⟩
  cases l <;> simp [arrSyncWriteSection]

/-! ### Delta window computation (C5) -/

/-- Folding `minTsStep` from an incumbent yields a row of the incumbent
or the list, with minimal timestamp among all of them. -/
theorem minTsStep_foldl_spec : ∀ (l : List SnapshotRow) (b : SnapshotRow),
    ∃ m, l.foldl minTsStep (some b) = some m ∧ (m = b ∨ m ∈ l) ∧
      m.ts ≤ b.ts ∧ ∀ r ∈ l, m.ts ≤ r.ts := by
  intro l
  induction l with
  | nil => intro b; exact ⟨b, rfl, Or.inl rfl, le_refl _, by simp⟩
  | cons r t ih =>
    intro b
    by_cases h : r.ts < b.ts
    · obtain ⟨m, hm, hmem, hle, hall⟩ := ih r
      refine ⟨m, by simpa [minTsStep, h] using hm, ?_, le_trans hle (le_of_lt h), ?_⟩
      · rcases hmem with rfl | hm'
        · exact Or.inr (List.mem_cons_self _ _)
        · exact Or.inr (List.mem_cons_of_mem _ hm')
      · intro x hx
        rcases List.mem_cons.mp hx with rfl | hx'
        · exact hle
        · exact hall x hx'
    · obtain ⟨m, hm, hmem, hle, hall⟩ := ih b
      refine ⟨m, by simpa [minTsStep, h] using hm, ?_, hle, ?_⟩
      · rcases hmem with rfl | hm'
        · exact Or.inl rfl
        · exact Or.inr (List.mem_cons_of_mem _ hm')
      · intro x hx
        rcases List.mem_cons.mp hx with rfl | hx'
        · exact le_trans hle (le_of_not_lt h)
        · exact hall x hx'

/-- Folding `maxTsStep` from an incumbent yields a row of the incumbent
or the list, with maximal timestamp among all of them. -/
theorem maxTsStep_foldl_spec : ∀ (l : List SnapshotRow) (b : SnapshotRow),
    ∃ m, l.foldl maxTsStep (some b) = some m ∧ (m = b ∨ m ∈ l) ∧
      b.ts ≤ m.ts ∧ ∀ r ∈ l, r.ts ≤ m.ts := by
  intro l
  induction l with
  | nil => intro b; exact ⟨b, rfl, Or.inl rfl, le_refl _, by simp⟩
  | cons r t ih =>
    intro b
    by_cases h : b.ts < r.ts
    · obtain ⟨m, hm, hmem, hle, hall⟩ := ih r
      refine ⟨m, by simpa [maxTsStep, h] using hm, ?_, le_trans (le_of_lt h) hle, ?_⟩
      · rcases hmem with rfl | hm'
        · exact Or.inr (List.mem_cons_self _ _)
        · exact Or.inr (List.mem_cons_of_mem _ hm')
      · intro x hx
        rcases List.mem_cons.mp hx with rfl | hx'
        · exact hle
        · exact hall x hx'
    · obtain ⟨m, hm, hmem, hle, hall⟩ := ih b
      refine ⟨m, by simpa [maxTsStep, h] using hm, ?_, hle, ?_⟩
      · rcases hmem with rfl | hm'
        · exact Or.inl rfl
        · exact Or.inr (List.mem_cons_of_mem _ hm')
      · intro x hx
        rcases List.mem_cons.mp hx with rfl | hx'
        · exact le_trans (le_of_not_lt h) hle
        · exact hall x hx'

/-- On a non-empty list, the ascending rank-1 row exists, belongs to the
list, and minimizes the timestamp. -/
theorem rnAsc1_spec (l : List SnapshotRow) (h : l ≠ []) :
    ∃ m, rnAsc1 l = some m ∧ m ∈ l ∧ ∀ r ∈ l, m.ts ≤ r.ts := by
  cases l with
  | nil => exact absurd rfl h
  | cons r t =>
    obtain ⟨m, hm, hmem, hle, hall⟩ := minTsStep_foldl_spec t r
    refine ⟨m, ?_, ?_, ?_⟩
    · simpa [rnAsc1, List.foldl_cons, minTsStep] using hm
    · rcases hmem with rfl | hm'
      · exact List.mem_cons_self _ _
      · exact List.mem_cons_of_mem _ hm'
    · intro x hx
      rcases List.mem_cons.mp hx with rfl | hx'
      · exact hle
      · exact hall x hx'

/-- On a non-empty list, the descending rank-1 row exists, belongs to
the list, and maximizes the timestamp. -/
theorem rnDesc1_spec (l : List SnapshotRow) (h : l ≠ []) :
    ∃ m, rnDesc1 l = some m ∧ m ∈ l ∧ ∀ r ∈ l, r.ts ≤ m.ts := by
  cases l with
  | nil => exact absurd rfl h
  | cons r t =>
    obtain ⟨m, hm, hmem, hle, hall⟩ := maxTsStep_foldl_spec t r
    refine ⟨m, ?_, ?_, ?_⟩
    · simpa [rnDesc1, List.foldl_cons, maxTsStep] using hm
    · rcases hmem with rfl | hm'
      · exact List.mem_cons_self _ _
      · exact List.mem_cons_of_mem _ hm'
    · intro x hx
      rcases List.mem_cons.mp hx with rfl | hx'
      · exact hle
      · exact hall x hx'

/-- With pairwise-distinct timestamps, a timestamp-minimizing member of
the list is unique. -/
theorem minimizer_unique (l : List SnapshotRow)
    (hpw : l.Pairwise fun a b => a.ts ≠ b.ts) (m₁ m₂ : SnapshotRow)
    (h₁ : m₁ ∈ l) (hmin₁ : ∀ r ∈ l, m₁.ts ≤ r.ts)
    (h₂ : m₂ ∈ l) (hmin₂ : ∀ r ∈ l, m₂.ts ≤ r.ts) : m₁ = m₂ := by
  by_contra hne
  exact hpw.forall (fun a b hab => (Ne.symm hab)) h₁ h₂ hne
    (le_antisymm (hmin₁ m₂ h₂) (hmin₂ m₁ h₁))

/-- With pairwise-distinct timestamps, a timestamp-maximizing member of
the list is unique. -/
theorem maximizer_unique (l : List SnapshotRow)
    (hpw : l.Pairwise fun a b => a.ts ≠ b.ts) (m₁ m₂ : SnapshotRow)
    (h₁ : m₁ ∈ l) (hmax₁ : ∀ r ∈ l, r.ts ≤ m₁.ts)
    (h₂ : m₂ ∈ l) (hmax₂ : ∀ r ∈ l, r.ts ≤ m₂.ts) : m₁ = m₂ := by
  by_contra hne
  exact hpw.forall (fun a b hab => (Ne.symm hab)) h₁ h₂ hne
    (le_antisymm (hmax₂ m₁ h₁) (hmax₁ m₂ h₂))

/-- When the `(oid, oname, kpi)` group has a window row, the output row
exists and carries the partition-extremal values gated by the group's
name, with `NULL`-propagating subtraction. -/
theorem fetchKpiDelta_of_group_ne_nil (cutoff year : ℤ) (oid oname kpi : String)
    (rows : List SnapshotRow) (h : kpiGroup cutoff year oid oname kpi rows ≠ []) :
    fetchKpiDelta cutoff year oid oname kpi rows =
      some (groupExtremal (rnAsc1 (kpiPartition cutoff year oid kpi rows)) oname,
        groupExtremal (rnDesc1 (kpiPartition cutoff year oid kpi rows)) oname,
        match groupExtremal (rnAsc1 (kpiPartition cutoff year oid kpi rows)) oname,
            groupExtremal (rnDesc1 (kpiPartition cutoff year oid kpi rows)) oname with
        | some f, some l => some (l - f)
        | _, _ => none) := by
  cases hg : kpiGroup cutoff year oid oname kpi rows with
  | nil => exact absurd hg h
  | cons a as => simp [fetchKpiDelta, hg]

/-- C5: the claim is false on the code.  The outer query groups by
`organization_id, organization_name, kpi` while `ROW_NUMBER` partitions
by `(organization_id, kpi)` only: a partition whose rows carry two
different `organization_name` values splits into name-groups, and a
group missing one of the partition's extremal rows gets `NULL` for that
side and a `NULL` delta.  Here the `(o1, Number of log entries)`
partition holds `(NameA, 10, t1)` and `(NameB, 40, t2)` — earliest 10,
latest 40 — yet both emitted rows carry `delta = NULL`; no row reports
`delta = 30 = last_value − first_value`. -/
theorem c5_counterexample :
    fetchKpiDelta 0 2025 "o1" "NameA" "Number of log entries"
        [⟨"o1", "NameA", "Number of log entries", 10, 1, 2025⟩,
         ⟨"o1", "NameB", "Number of log entries", 40, 2, 2025⟩] =
      some (some 10, none, none) ∧
    fetchKpiDelta 0 2025 "o1" "NameB" "Number of log entries"
        [⟨"o1", "NameA", "Number of log entries", 10, 1, 2025⟩,
         ⟨"o1", "NameB", "Number of log entries", 40, 2, 2025⟩] =
      some (none, some 40, none) ∧
    kpiPartition 0 2025 "o1" "Number of log entries"
        [⟨"o1", "NameA", "Number of log entries", 10, 1, 2025⟩,
         ⟨"o1", "NameB", "Number of log entries", 40, 2, 2025⟩] =
      [⟨"o1", "NameA", "Number of log entries", 10, 1, 2025⟩,
       ⟨"o1", "NameB", "Number of log entries", 40, 2, 2025⟩] := by
  refine ⟨?_, ?_, by decide⟩ <;> decide

/-- C5 (amended): on a non-empty `(entity_id, metric_name)` partition
inside the window whose rows all carry one `organization_name` (so the
`GROUP BY organization_name` does not split it) and whose snapshot
timestamps are distinct (`ROW_NUMBER` tie-breaking is otherwise
unspecified), the emitted row carries the value of the chronologically
earliest row as `first_value`, the value of the chronologically latest
row as `last_value`, and their difference as `delta`, independently of
the input ordering; a single-row partition yields
`first_value = last_value` and `delta = 0`. -/
theorem c5_delta_window (cutoff year : ℤ) (oid oname kpi : String)
    (rows rows' : List SnapshotRow) (hperm : rows.Perm rows')
    (hne : kpiPartition cutoff year oid kpi rows ≠ [])
    (hdist : (kpiPartition cutoff year oid kpi rows).Pairwise
      fun a b => a.ts ≠ b.ts)
    (hname : ∀ r ∈ kpiPartition cutoff year oid kpi rows, r.orgName = oname) :
    ∃ f l, fetchKpiDelta cutoff year oid oname kpi rows =
        some (some f.value, some l.value, some (l.value - f.value)) ∧
      fetchKpiDelta cutoff year oid oname kpi rows' =
        some (some f.value, some l.value, some (l.value - f.value)) ∧
      f ∈ kpiPartition cutoff year oid kpi rows ∧
      (∀ r ∈ kpiPartition cutoff year oid kpi rows, f.ts ≤ r.ts) ∧
      l ∈ kpiPartition cutoff year oid kpi rows ∧
      (∀ r ∈ kpiPartition cutoff year oid kpi rows, r.ts ≤ l.ts) ∧
      (∀ r, kpiPartition cutoff year oid kpi rows = [r] →
        f = r ∧ l = r ∧ l.value - f.value = 0) := by
  have hpp : (kpiPartition cutoff year oid kpi rows).Perm
      (kpiPartition cutoff year oid kpi rows') := hperm.filter _
  obtain ⟨f, hf, hfmem, hfmin⟩ := rnAsc1_spec _ hne
  obtain ⟨l, hl, hlmem, hlmax⟩ := rnDesc1_spec _ hne
  have hne' : kpiPartition cutoff year oid kpi rows' ≠ [] := by
    intro h0
    exact hne (List.eq_nil_of_length_eq_zero (by rw [hpp.length_eq, h0]; rfl))
  obtain ⟨f', hf', hfmem', hfmin'⟩ := rnAsc1_spec _ hne'
  obtain ⟨l', hl', hlmem', hlmax'⟩ := rnDesc1_spec _ hne'
  have hfe : f = f' := by
    refine minimizer_unique _ hdist f f' hfmem hfmin (hpp.mem_iff.mpr hfmem') ?_
    intro r hr
    exact hfmin' r (hpp.mem_iff.mp hr)
  have hle : l = l' := by
    refine maximizer_unique _ hdist l l' hlmem hlmax (hpp.mem_iff.mpr hlmem') ?_
    intro r hr
    exact hlmax' r (hpp.mem_iff.mp hr)
  have hname' : ∀ r ∈ kpiPartition cutoff year oid kpi rows', r.orgName = oname :=
    fun r hr => hname r (hpp.mem_iff.mpr hr)
  have hgroup : kpiGroup cutoff year oid oname kpi rows =
      kpiPartition cutoff year oid kpi rows := by
    rw [kpiGroup, List.filter_eq_self]
    intro r hr
    simp [hname r hr]
  have hgroup' : kpiGroup cutoff year oid oname kpi rows' =
      kpiPartition cutoff year oid kpi rows' := by
    rw [kpiGroup, List.filter_eq_self]
    intro r hr
    simp [hname' r hr]
  have hfn : (f.orgName == oname) = true := by simp [hname f hfmem]
  have hln : (l.orgName == oname) = true := by simp [hname l hlmem]
  refine ⟨f, l, ?_, ?_, hfmem, hfmin, hlmem, hlmax, ?_⟩
  · rw [fetchKpiDelta_of_group_ne_nil cutoff year oid oname kpi rows
      (by rw [hgroup]; exact hne)]
    rw [hf, hl]
    simp [groupExtremal, hfn, hln]
  · rw [fetchKpiDelta_of_group_ne_nil cutoff year oid oname kpi rows'
      (by rw [hgroup']; exact hne')]
    rw [hf', hl', ← hfe, ← hle]
    simp [groupExtremal, hfn, hln]
  · intro r hr
    have hfr : f = r := by
      have := hfmem
      rw [hr] at this
      simpa using this
    have hlr : l = r := by
      have := hlmem
      rw [hr] at this
      simpa using this
    exact ⟨hfr, hlr, by rw [hfr, hlr]; ring⟩

/-- Witness for C5 (amended): the spec's example partition
`[(t1,10),(t2,25),(t3,40)]` with a single org name, consumed in
scrambled input order. -/
theorem c5_witness :
    ∃ f l, fetchKpiDelta 0 2025 "org1" "n" "Number of log entries"
        [⟨"org1", "n", "Number of log entries", 25, 2, 2025⟩,
         ⟨"org1", "n", "Number of log entries", 40, 3, 2025⟩,
         ⟨"org1", "n", "Number of log entries", 10, 1, 2025⟩] =
        some (some f.value, some l.value, some (l.value - f.value)) ∧
      fetchKpiDelta 0 2025 "org1" "n" "Number of log entries"
        [⟨"org1", "n", "Number of log entries", 10, 1, 2025⟩,
         ⟨"org1", "n", "Number of log entries", 25, 2, 2025⟩,
         ⟨"org1", "n", "Number of log entries", 40, 3, 2025⟩] =
        some (some f.value, some l.value, some (l.value - f.value)) ∧
      f ∈ kpiPartition 0 2025 "org1" "Number of log entries"
        [⟨"org1", "n", "Number of log entries", 25, 2, 2025⟩,
         ⟨"org1", "n", "Number of log entries", 40, 3, 2025⟩,
         ⟨"org1", "n", "Number of log entries", 10, 1, 2025⟩] ∧
      (∀ r ∈ kpiPartition 0 2025 "org1" "Number of log entries"
        [⟨"org1", "n", "Number of log entries", 25, 2, 2025⟩,
         ⟨"org1", "n", "Number of log entries", 40, 3, 2025⟩,
         ⟨"org1", "n", "Number of log entries", 10, 1, 2025⟩], f.ts ≤ r.ts) ∧
      l ∈ kpiPartition 0 2025 "org1" "Number of log entries"
        [⟨"org1", "n", "Number of log entries", 25, 2, 2025⟩,
         ⟨"org1", "n", "Number of log entries", 40, 3, 2025⟩,
         ⟨"org1", "n", "Number of log entries", 10, 1, 2025⟩] ∧
      (∀ r ∈ kpiPartition 0 2025 "org1" "Number of log entries"
        [⟨"org1", "n", "Number of log entries", 25, 2, 2025⟩,
         ⟨"org1", "n", "Number of log entries", 40, 3, 2025⟩,
         ⟨"org1", "n", "Number of log entries", 10, 1, 2025⟩], r.ts ≤ l.ts) ∧
      (∀ r, kpiPartition 0 2025 "org1" "Number of log entries"
        [⟨"org1", "n", "Number of log entries", 25, 2, 2025⟩,
         ⟨"org1", "n", "Number of log entries", 40, 3, 2025⟩,
         ⟨"org1", "n", "Number of log entries", 10, 1, 2025⟩] = [r] →
        f = r ∧ l = r ∧ l.value - f.value = 0) :=
  c5_delta_window 0 2025 "org1" "n" "Number of log entries" _ _
    (by decide) (by decide) (by decide) (by decide)

/-! ### Entity resolution cache (C9) -/

theorem alookup_append {β : Type} (l1 l2 : List (String × β)) (k : String) :
    alookup (l1 ++ l2) k =
      match alookup l1 k with
      | some v => some v
      | none => alookup l2 k := by
  induction l1 with
  | nil => rfl
  | cons p t ih =>
    by_cases h : p.1 = k
    · simp [alookup, h]
    · simp [alookup, h, ih]

theorem alookup_mem {β : Type} : ∀ (l : List (String × β)) (k : String) (v : β),
    alookup l k = some v → (k, v) ∈ l := by
  intro l
  induction l with
  | nil => intro k v h; simp [alookup] at h
  | cons p t ih =>
    intro k v h
    by_cases hk : p.1 = k
    · simp only [alookup, hk, if_true, Option.some.injEq] at h
      subst hk; subst h
      exact List.mem_cons_self _ _
    · simp only [alookup, hk, if_false] at h
      exact List.mem_cons_of_mem _ (ih k v h)

/-- Resolution issues lookups only for orgs absent from the incoming
cache, and never twice for the same org. -/
theorem resolveLoop_lookups_fresh (oracle : String → LookupOutcome) :
    ∀ (items : List String) (cache : List (String × Option String)),
      (resolveLoop oracle items cache).lookups.Nodup ∧
      ∀ o ∈ (resolveLoop oracle items cache).lookups, alookup cache o = none := by
  intro items
  induction items with
  | nil => intro cache; exact ⟨List.nodup_nil, by simp [resolveLoop]⟩
  | cons org rest ih =>
    intro cache
    cases h : alookup cache org with
    | some v =>
      obtain ⟨hnd, hfresh⟩ := ih cache
      exact ⟨by simpa [resolveLoop, h] using hnd,
        by simpa [resolveLoop, h] using hfresh⟩
    | none =>
      obtain ⟨hnd, hfresh⟩ := ih (cache ++ [(org, cacheValue (oracle org))])
      have horgcache :
          alookup (cache ++ [(org, cacheValue (oracle org))]) org =
            some (cacheValue (oracle org)) := by
        rw [alookup_append, h]
        simp [alookup]
      refine ⟨?_, ?_⟩
      · simp only [resolveLoop, h]
        refine List.Nodup.cons ?_ hnd
        intro hmem
        rw [hfresh org hmem] at horgcache
        exact Option.noConfusion horgcache
      · intro o ho
        simp only [resolveLoop, h, List.mem_cons] at ho
        rcases ho with rfl | ho'
        · exact h
        · have := hfresh o ho'
          rw [alookup_append] at this
          cases halo : alookup cache o with
          | none => rfl
          | some w => rw [halo] at this; exact Option.noConfusion this

/-- Every processed item appears in the outcome list, in order: a
resolution miss never aborts the remaining entities. -/
theorem resolveLoop_outcomes_fst (oracle : String → LookupOutcome) :
    ∀ (items : List String) (cache : List (String × Option String)),
      ((resolveLoop oracle items cache).outcomes).map Prod.fst = items := by
  intro items
  induction items with
  | nil => intro cache; rfl
  | cons org rest ih =>
    intro cache
    cases h : alookup cache org with
    | some v => simp [resolveLoop, h, ih]
    | none => simp [resolveLoop, h, ih]

/-- Cache entries are never overwritten or dropped. -/
theorem resolveLoop_cache_mono (oracle : String → LookupOutcome) :
    ∀ (items : List String) (cache : List (String × Option String))
      (o : String) (v : Option String), alookup cache o = some v →
      alookup (resolveLoop oracle items cache).cache o = some v := by
  intro items
  induction items with
  | nil => intro cache o v h; simpa [resolveLoop] using h
  | cons org rest ih =>
    intro cache o v h
    cases horg : alookup cache org with
    | some w => simpa [resolveLoop, horg] using ih cache o v h
    | none =>
      have h' : alookup (cache ++ [(org, cacheValue (oracle org))]) o = some v := by
        rw [alookup_append, h]
      simpa [resolveLoop, horg] using ih _ o v h'

/-- Both successful resolutions and misses end up cached: every
processed org has a cache entry after the run. -/
theorem resolveLoop_covers (oracle : String → LookupOutcome) :
    ∀ (items : List String) (cache : List (String × Option String)),
      ∀ o ∈ items, (alookup (resolveLoop oracle items cache).cache o).isSome = true := by
  intro items
  induction items with
  | nil => intro cache o ho; simp at ho
  | cons org rest ih =>
    intro cache o ho
    cases horg : alookup cache org with
    | some w =>
      rcases List.mem_cons.mp ho with rfl | ho'
      · have := resolveLoop_cache_mono oracle rest cache o w horg
        simp [resolveLoop, horg, this]
      · simpa [resolveLoop, horg] using ih cache o ho'
    | none =>
      have horgcache :
          alookup (cache ++ [(org, cacheValue (oracle org))]) org =
            some (cacheValue (oracle org)) := by
        rw [alookup_append, horg]
        simp [alookup]
      rcases List.mem_cons.mp ho with rfl | ho'
      · have := resolveLoop_cache_mono oracle rest _ o _ horgcache
        simp [resolveLoop, horg, this]
      · simpa [resolveLoop, horg] using ih _ o ho'

/-- When the cache agrees with the lookup oracle, each item's outcome is
decided by its own oracle result alone. -/
theorem resolveLoop_outcome_mem (oracle : String → LookupOutcome) :
    ∀ (items : List String) (cache : List (String × Option String)),
      (∀ p ∈ cache, p.2 = cacheValue (oracle p.1)) →
      ∀ o ∈ items, (o, outcomeOf (cacheValue (oracle o))) ∈
        (resolveLoop oracle items cache).outcomes := by
  intro items
  induction items with
  | nil => intro cache _ o ho; simp at ho
  | cons org rest ih =>
    intro cache hc o ho
    cases horg : alookup cache org with
    | some v =>
      have hv : v = cacheValue (oracle org) := hc (org, v) (alookup_mem cache org v horg)
      rcases List.mem_cons.mp ho with rfl | ho'
      · subst hv
        simp [resolveLoop, horg]
      · simp only [resolveLoop, horg]
        exact List.mem_cons_of_mem _ (ih cache hc o ho')
    | none =>
      have hc' : ∀ p ∈ cache ++ [(org, cacheValue (oracle org))],
          p.2 = cacheValue (oracle p.1) := by
        intro p hp
        rcases List.mem_append.mp hp with hp' | hp'
        · exact hc p hp'
        · simp at hp'
          subst hp'
          rfl
      rcases List.mem_cons.mp ho with rfl | ho'
      · simp [resolveLoop, horg]
      · simp only [resolveLoop, horg]
        exact List.mem_cons_of_mem _ (ih _ hc' o ho')

/-- C9: within one run, at most one external lookup per distinct source
org id (the lookup list has no duplicates); hits, misses and failed
lookups are all cached (every processed org has a final cache entry);
and a miss only skips that entity — every item in the iteration sequence
is processed and its outcome is decided by its own oracle result. -/
theorem c9_resolution_cache (oracle : String → LookupOutcome)
    (items : List String) :
    (resolveRun oracle items).lookups.Nodup ∧
    ((resolveRun oracle items).outcomes.map Prod.fst = items) ∧
    (∀ o ∈ items, (alookup (resolveRun oracle items).cache o).isSome = true) ∧
    (∀ o ∈ items, (o, outcomeOf (cacheValue (oracle o))) ∈
      (resolveRun oracle items).outcomes) :=
  ⟨(resolveLoop_lookups_fresh oracle items []).1,
   resolveLoop_outcomes_fst oracle items [],
   fun o ho => resolveLoop_covers oracle items [] o ho,
   fun o ho => resolveLoop_outcome_mem oracle items [] (by simp) o ho⟩

/-- Witness for C9 on a concrete run: org "A" resolves, org "B"'s lookup
raises; "A" recurs in the items yet is looked up once; "B" is skipped
without aborting the later items. -/
theorem c9_witness :
    (resolveRun (fun o => if o = "A" then .found "h1" else .raised)
        ["A", "B", "A", "C"]).lookups.Nodup ∧
    ((resolveRun (fun o => if o = "A" then .found "h1" else .raised)
        ["A", "B", "A", "C"]).outcomes.map Prod.fst = ["A", "B", "A", "C"]) ∧
    (alookup (resolveRun (fun o => if o = "A" then .found "h1" else .raised)
        ["A", "B", "A", "C"]).cache "B").isSome = true ∧
    ("B", ItemOutcome.skipped) ∈
      (resolveRun (fun o => if o = "A" then .found "h1" else .raised)
        ["A", "B", "A", "C"]).outcomes :=
  ⟨(c9_resolution_cache _ ["A", "B", "A", "C"]).1,
   (c9_resolution_cache _ ["A", "B", "A", "C"]).2.1,
   (c9_resolution_cache _ ["A", "B", "A", "C"]).2.2.1 "B" (by simp),
   (c9_resolution_cache _ ["A", "B", "A", "C"]).2.2.2 "B" (by simp)⟩

/-! ### Aggregation invariant machinery (C4, C7, C8) -/

theorem alookup_eq_none_iff {β : Type} : ∀ (l : List (String × β)) (k : String),
    alookup l k = none ↔ k ∉ l.map Prod.fst := by
  intro l
  induction l with
  | nil => intro k; simp [alookup]
  | cons p t ih =>
    intro k
    by_cases h : p.1 = k
    · simp [alookup, h]
    · simp [alookup, h, ih k, Ne.symm h]

theorem alookup_isSome_iff {β : Type} (l : List (String × β)) (k : String) :
    (alookup l k).isSome = true ↔ k ∈ l.map Prod.fst := by
  constructor
  · intro hs
    by_contra hk
    rw [(alookup_eq_none_iff l k).mpr hk] at hs
    simp at hs
  · intro hk
    cases h : alookup l k with
    | some v => rfl
    | none => exact absurd hk ((alookup_eq_none_iff l k).mp h)

theorem alookup_aupdate_self {β : Type} (f : β → β) :
    ∀ (l : List (String × β)) (k : String),
      alookup (aupdate f l k) k = (alookup l k).map f := by
  intro l
  induction l with
  | nil => intro k; rfl
  | cons p t ih =>
    intro k
    by_cases h : p.1 = k
    · simp [aupdate, alookup, h]
    · simp [aupdate, alookup, h, ih k]

theorem alookup_aupdate_ne {β : Type} (f : β → β) :
    ∀ (l : List (String × β)) (k k' : String), k' ≠ k →
      alookup (aupdate f l k) k' = alookup l k' := by
  intro l
  induction l with
  | nil => intro k k' _; rfl
  | cons p t ih =>
    intro k k' hne
    by_cases h : p.1 = k
    · simp [aupdate, alookup, h, Ne.symm hne]
    · by_cases h' : p.1 = k'
      · simp [aupdate, alookup, h, h', hne]
      · simp [aupdate, alookup, h, h', ih k k' hne]

theorem aupdate_keys {β : Type} (f : β → β) :
    ∀ (l : List (String × β)) (k : String),
      (aupdate f l k).map Prod.fst = l.map Prod.fst := by
  intro l
  induction l with
  | nil => intro k; rfl
  | cons p t ih =>
    intro k
    by_cases h : p.1 = k
    · simp [aupdate, h]
    · simp [aupdate, h, ih k]

theorem alookup_map_const {β : Type} (c : β) :
    ∀ (keys : List String) (k : String),
      alookup (keys.map fun x => (x, c)) k = if k ∈ keys then some c else none := by
  intro keys
  induction keys with
  | nil => intro k; simp [alookup]
  | cons x t ih =>
    intro k
    by_cases h : x = k
    · simp [alookup, h]
    · simp [alookup, h, ih k, Ne.symm h]

theorem mem_seenList_go : ∀ (ids acc : List String) (x : String),
    x ∈ ids.foldl (fun a i => if i ∈ a then a else a ++ [i]) acc ↔
      x ∈ acc ∨ x ∈ ids := by
  intro ids
  induction ids with
  | nil => intro acc x; simp
  | cons i t ih =>
    intro acc x
    rw [List.foldl_cons]
    by_cases h : i ∈ acc
    · rw [if_pos h, ih acc x]
      constructor
      · rintro (hx | hx)
        · exact Or.inl hx
        · exact Or.inr (List.mem_cons_of_mem _ hx)
      · rintro (hx | hx)
        · exact Or.inl hx
        · rcases List.mem_cons.mp hx with rfl | hx'
          · exact Or.inl h
          · exact Or.inr hx'
    · rw [if_neg h, ih (acc ++ [i]) x]
      simp only [List.mem_append, List.mem_singleton, List.mem_cons]
      tauto

theorem mem_seenList (ids : List String) (x : String) :
    x ∈ seenList ids ↔ x ∈ ids := by
  rw [seenList, mem_seenList_go]
  simp

theorem seenList_snoc (ids : List String) (i : String) :
    seenList (ids ++ [i]) =
      if i ∈ ids then seenList ids else seenList ids ++ [i] := by
  unfold seenList
  rw [List.foldl_append, List.foldl_cons, List.foldl_nil]
  by_cases h : i ∈ ids
  · rw [if_pos, if_pos h]
    exact (mem_seenList_go ids [] i).mpr (Or.inr h)
  · rw [if_neg, if_neg h]
    intro hmem
    rcases (mem_seenList_go ids [] i).mp hmem with h0 | h0
    · simp at h0
    · exact h h0

theorem prevIds_snoc (p : List MpEvent) (ev : MpEvent) (e : String) :
    prevIds (p ++ [ev]) e =
      prevIds p e ++
        (if ev.name == e && eventIdTruthy ev then [ev.insertId.getD ""] else []) := by
  unfold prevIds
  rw [List.filter_append, List.map_append]
  by_cases h : (ev.name == e && eventIdTruthy ev) = true
  · simp [h]
  · simp [List.filter_cons, h]

theorem survGo_append (e : String) : ∀ (l1 : List MpEvent) (p l2 : List MpEvent),
    survGo e p (l1 ++ l2) = survGo e p l1 ++ survGo e (p ++ l1) l2 := by
  intro l1
  induction l1 with
  | nil => intro p l2; simp [survGo]
  | cons x t ih =>
    intro p l2
    rw [List.cons_append]
    simp only [survGo, List.append_eq]
    rw [ih (p ++ [x]) l2]
    by_cases h : (x.name == e && survivesAfter p x) = true
    · simp [h, List.append_assoc]
    · simp [h, List.append_assoc]

theorem survivorsOf_snoc (p : List MpEvent) (ev : MpEvent) (e : String) :
    survivorsOf (p ++ [ev]) e =
      survivorsOf p e ++
        (if ev.name == e && survivesAfter p ev then [ev] else []) := by
  unfold survivorsOf
  rw [survGo_append]
  simp [survGo]

theorem survivors_snoc (p : List MpEvent) (ev : MpEvent) (e o : String) :
    survivors (p ++ [ev]) e o =
      survivors p e o ++
        (if ev.name == e && survivesAfter p ev && (orgStr ev == o)
          then [ev] else []) := by
  unfold survivors
  rw [survivorsOf_snoc, List.filter_append]
  by_cases h1 : (ev.name == e && survivesAfter p ev) = true
  · by_cases h2 : (orgStr ev == o) = true
    · simp [h1, h2]
    · simp [h1, h2]
  · simp [h1]

theorem survOrgs_snoc (p : List MpEvent) (ev : MpEvent) (e : String) :
    survOrgs (p ++ [ev]) e =
      survOrgs p e ++
        (if ev.name == e && survivesAfter p ev then [orgStr ev] else []) := by
  unfold survOrgs
  rw [survivorsOf_snoc, List.map_append]
  by_cases h : (ev.name == e && survivesAfter p ev) = true
  · simp [h]
  · simp [h]

theorem survCount_snoc (p : List MpEvent) (ev : MpEvent) (e o : String) :
    survCount (p ++ [ev]) e o =
      survCount p e o +
        (if ev.name == e && survivesAfter p ev && (orgStr ev == o)
          then 1 else 0) := by
  unfold survCount
  rw [survivors_snoc, List.length_append]
  by_cases h : (ev.name == e && survivesAfter p ev && (orgStr ev == o)) = true
  · simp [h]
  · simp [h]

theorem survUrls_snoc (p : List MpEvent) (ev : MpEvent) (e o : String) :
    survUrls (p ++ [ev]) e o =
      survUrls p e o ++
        (if ev.name == e && survivesAfter p ev && (orgStr ev == o) &&
              strTruthy ev.url
          then [ev.url.getD ""] else []) := by
  unfold survUrls
  rw [survivors_snoc, List.filter_append, List.map_append]
  by_cases h : (ev.name == e && survivesAfter p ev && (orgStr ev == o)) = true
  · by_cases hu : strTruthy ev.url = true
    · simp [h, hu]
    · simp [h, hu]
  · simp [h]

theorem survivors_eq_nil (p : List MpEvent) (e o : String)
    (h : o ∉ survOrgs p e) : survivors p e o = [] := by
  rw [survivors, List.filter_eq_nil_iff]
  intro x hx
  simp only [beq_iff_eq]
  intro hxo
  exact h (List.mem_map.mpr ⟨x, hx, hxo⟩)

theorem map_fst_map_pair {β : Type} (f : String → β) :
    ∀ keys : List String, ((keys.map fun k => (k, f k)).map Prod.fst) = keys := by
  intro keys
  induction keys with
  | nil => rfl
  | cons x t ih => simp [ih]

/-- The freshly initialized state satisfies the invariant for the empty
prefix. -/
theorem initState_inv (events orgs : List String) (horgs : orgs.Nodup) :
    AggInv events orgs [] (initState events orgs) := by
  refine ⟨?_, ?_, ?_⟩
  · exact map_fst_map_pair _ events
  · intro e he
    simp only [initState, initSeen]
    rw [alookup_map_const]
    simp [he, seenList, prevIds]
  · intro e tbl htbl
    simp only [initState, initAgg] at htbl
    rw [alookup_map_const] at htbl
    by_cases he : e ∈ events
    · rw [if_pos he] at htbl
      injection htbl with htbl
      subst htbl
      refine ⟨?_, ?_, ?_⟩
      · rw [map_fst_map_pair (fun _ => Bucket.empty) orgs]
        exact horgs
      · intro o
        rw [alookup_map_const]
        by_cases ho : o ∈ orgs <;>
          simp [ho, survOrgs, survivorsOf, survGo]
      · intro o b hb
        rw [alookup_map_const] at hb
        by_cases ho : o ∈ orgs
        · rw [if_pos ho] at hb
          injection hb with hb
          subst hb
          simp [Bucket.empty, survUrls, survCount, survivors, survivorsOf, survGo]
        · rw [if_neg ho] at hb
          exact absurd hb (by simp)
    · rw [if_neg he] at htbl
      exact absurd htbl (by simp)

/-- Bumping the org table of the event's name preserves the per-table
invariant components, re-indexed to the extended prefix, when the event
survives deduplication and org validation. -/
theorem bumpOrg_components (orgs : List String) (p : List MpEvent)
    (ev : MpEvent) (tbl0 : OrgTable)
    (h0 : (tbl0.map Prod.fst).Nodup ∧
      (∀ o, (alookup tbl0 o).isSome = true ↔ (o ∈ orgs ∨ o ∈ survOrgs p ev.name)) ∧
      (∀ o b, alookup tbl0 o = some b →
        b = ⟨survUrls p ev.name o, survCount p ev.name o⟩))
    (hsurv : survivesAfter p ev = true) :
    ((bumpOrg (orgStr ev) ev.url tbl0).map Prod.fst).Nodup ∧
    (∀ o, (alookup (bumpOrg (orgStr ev) ev.url tbl0) o).isSome = true ↔
      (o ∈ orgs ∨ o ∈ survOrgs (p ++ [ev]) ev.name)) ∧
    (∀ o b, alookup (bumpOrg (orgStr ev) ev.url tbl0) o = some b →
      b = ⟨survUrls (p ++ [ev]) ev.name o, survCount (p ++ [ev]) ev.name o⟩) := by
  obtain ⟨hnd0, hiff0, hval0⟩ := h0
  have hcond : (ev.name == ev.name && survivesAfter p ev) = true := by
    simp [hsurv]
  have horgsnoc : survOrgs (p ++ [ev]) ev.name = survOrgs p ev.name ++ [orgStr ev] := by
    rw [survOrgs_snoc, if_pos hcond]
  cases hpres : alookup tbl0 (orgStr ev) with
  | some b0 =>
    have hbump : bumpOrg (orgStr ev) ev.url tbl0 =
        aupdate (addToBucket ev.url) tbl0 (orgStr ev) := by
      rw [bumpOrg, asetdefault, hpres]
    rw [hbump]
    refine ⟨by rw [aupdate_keys]; exact hnd0, ?_, ?_⟩
    · intro o
      by_cases ho : o = orgStr ev
      · subst ho
        rw [alookup_aupdate_self, hpres, horgsnoc]
        simp
      · rw [alookup_aupdate_ne _ _ _ _ ho, horgsnoc, hiff0 o]
        simp only [List.mem_append, List.mem_singleton]
        constructor
        · rintro (h | h)
          · exact Or.inl h
          · exact Or.inr (Or.inl h)
        · rintro (h | h | h)
          · exact Or.inl h
          · exact Or.inr h
          · exact absurd h ho
    · intro o b hb
      by_cases ho : o = orgStr ev
      · subst ho
        rw [alookup_aupdate_self, hpres] at hb
        injection hb with hb
        subst hb
        have hb0 := hval0 (orgStr ev) b0 hpres
        subst hb0
        rw [survUrls_snoc, survCount_snoc]
        by_cases hu : strTruthy ev.url = true
        · simp [addToBucket, hu, hsurv]
        · simp [addToBucket, hu, hsurv]
      · rw [alookup_aupdate_ne _ _ _ _ ho] at hb
        have hvb := hval0 o b hb
        rw [survUrls_snoc, survCount_snoc]
        simp [hvb, hsurv, Ne.symm ho]
  | none =>
    have horgnot : orgStr ev ∉ tbl0.map Prod.fst := (alookup_eq_none_iff _ _).mp hpres
    have hnotin : ¬(orgStr ev ∈ orgs ∨ orgStr ev ∈ survOrgs p ev.name) := by
      rw [← hiff0 (orgStr ev), hpres]
      simp
    push_neg at hnotin
    have hsurvnil : survivors p ev.name (orgStr ev) = [] :=
      survivors_eq_nil _ _ _ hnotin.2
    have hbump : bumpOrg (orgStr ev) ev.url tbl0 =
        aupdate (addToBucket ev.url) (tbl0 ++ [(orgStr ev, Bucket.empty)])
          (orgStr ev) := by
      rw [bumpOrg, asetdefault, hpres]
    have hlookup_org :
        alookup (tbl0 ++ [(orgStr ev, Bucket.empty)]) (orgStr ev) =
          some Bucket.empty := by
      rw [alookup_append, hpres]
      simp [alookup]
    have hlookup_ne : ∀ o, o ≠ orgStr ev →
        alookup (tbl0 ++ [(orgStr ev, Bucket.empty)]) o = alookup tbl0 o := by
      intro o ho
      rw [alookup_append]
      cases h : alookup tbl0 o with
      | some v => rfl
      | none => simp [alookup, Ne.symm ho]
    rw [hbump]
    refine ⟨?_, ?_, ?_⟩
    · rw [aupdate_keys, List.map_append]
      refine List.Nodup.append hnd0 (by simp) ?_
      intro a ha hb
      simp at hb
      subst hb
      exact horgnot ha
    · intro o
      by_cases ho : o = orgStr ev
      · subst ho
        rw [alookup_aupdate_self, hlookup_org, horgsnoc]
        simp
      · rw [alookup_aupdate_ne _ _ _ _ ho, hlookup_ne o ho, horgsnoc, hiff0 o]
        simp only [List.mem_append, List.mem_singleton]
        constructor
        · rintro (h | h)
          · exact Or.inl h
          · exact Or.inr (Or.inl h)
        · rintro (h | h | h)
          · exact Or.inl h
          · exact Or.inr h
          · exact absurd h ho
    · intro o b hb
      by_cases ho : o = orgStr ev
      · subst ho
        rw [alookup_aupdate_self, hlookup_org] at hb
        injection hb with hb
        subst hb
        rw [survUrls_snoc, survCount_snoc]
        have hzero : survCount p ev.name (orgStr ev) = 0 := by
          simp [survCount, hsurvnil]
        have hnil : survUrls p ev.name (orgStr ev) = [] := by
          simp [survUrls, hsurvnil]
        by_cases hu : strTruthy ev.url = true
        · simp [addToBucket, Bucket.empty, hu, hsurv, hzero, hnil]
        · simp [addToBucket, Bucket.empty, hu, hsurv, hzero, hnil]
      · rw [alookup_aupdate_ne _ _ _ _ ho, hlookup_ne o ho] at hb
        have hvb := hval0 o b hb
        rw [survUrls_snoc, survCount_snoc]
        simp [hvb, hsurv, Ne.symm ho]

/-- Processing one event preserves the aggregation invariant, with the
event appended to the processed prefix. -/
theorem stepEvent_inv (events orgs : List String) (p : List MpEvent)
    (st : AggState) (ev : MpEvent) (hinv : AggInv events orgs p st) :
    AggInv events orgs (p ++ [ev]) (stepEvent st ev) := by
  obtain ⟨hkeys, hseen, hagg⟩ := hinv
  cases hname : alookup st.agg ev.name with
  | none =>
    have hnotin : ev.name ∉ events := by
      rw [← hkeys]
      exact (alookup_eq_none_iff _ _).mp hname
    have hstep : stepEvent st ev = st := by simp [stepEvent, hname]
    rw [hstep]
    refine ⟨hkeys, ?_, ?_⟩
    · intro e he
      have hne : (ev.name == e) = false := by
        simp only [beq_eq_false_iff_ne, ne_eq]
        intro h
        exact hnotin (h ▸ he)
      rw [prevIds_snoc]
      simp [hne, hseen e he]
    · intro e tbl htbl
      obtain ⟨hnd, hiff, hval⟩ := hagg e tbl htbl
      have hein : e ∈ events := by
        rw [← hkeys]
        exact (alookup_isSome_iff _ _).mp (by rw [htbl]; rfl)
      have hne : (ev.name == e) = false := by
        simp only [beq_eq_false_iff_ne, ne_eq]
        intro h
        exact hnotin (h ▸ hein)
      refine ⟨hnd, ?_, ?_⟩
      · intro o
        rw [survOrgs_snoc]
        simp [hne, hiff o]
      · intro o b hb
        simpa [survUrls_snoc, survCount_snoc, hne] using hval o b hb
  | some tbl0 =>
    have hein : ev.name ∈ events := by
      rw [← hkeys]
      exact (alookup_isSome_iff _ _).mp (by rw [hname]; rfl)
    by_cases hid : strTruthy ev.insertId = true
    · -- id-carrying event
      by_cases hdup : (ev.insertId.getD "") ∈ seenList (prevIds p ev.name)
      · -- duplicate: discarded before any mutation
        have hstep : stepEvent st ev = st := by
          simp [stepEvent, hname, hid, hseen ev.name hein, hdup]
        have hsurv : survivesAfter p ev = false := by
          simp [survivesAfter, eventIdTruthy, hid,
            (mem_seenList _ _).mp hdup]
        rw [hstep]
        refine ⟨hkeys, ?_, ?_⟩
        · intro e he
          by_cases hne : (ev.name == e) = true
          · have he' : ev.name = e := by simpa using hne
            subst he'
            rw [prevIds_snoc]
            simp only [beq_self_eq_true, eventIdTruthy, hid, Bool.and_self,
              if_true, Bool.true_and]
            rw [seenList_snoc, if_pos ((mem_seenList _ _).mp hdup)]
            exact hseen ev.name hein
          · rw [prevIds_snoc]
            simp only [Bool.not_eq_true] at hne
            simp [hne, hseen e he]
        · intro e tbl htbl
          obtain ⟨hnd, hiff, hval⟩ := hagg e tbl htbl
          refine ⟨hnd, ?_, ?_⟩
          · intro o
            rw [survOrgs_snoc]
            simp [hsurv, hiff o]
          · intro o b hb
            simpa [survUrls_snoc, survCount_snoc, hsurv] using hval o b hb
      · -- new id: recorded as seen
        have hnotprev : (ev.insertId.getD "") ∉ prevIds p ev.name :=
          fun h => hdup ((mem_seenList _ _).mpr h)
        have hseenstep :
            ∀ e, e ∈ events →
              alookup (aupdate (fun l => l ++ [ev.insertId.getD ""]) st.seen ev.name) e =
                some (seenList (prevIds (p ++ [ev]) e)) := by
          intro e he
          by_cases hne : ev.name = e
          · subst hne
            rw [alookup_aupdate_self, hseen ev.name hein]
            rw [prevIds_snoc]
            simp only [beq_self_eq_true, eventIdTruthy, hid, Bool.true_and, if_true]
            rw [seenList_snoc, if_neg hnotprev]
            rfl
          · rw [alookup_aupdate_ne _ _ _ _ (Ne.symm hne)]
            rw [prevIds_snoc]
            have hne' : (ev.name == e) = false := by
              simpa [beq_eq_false_iff_ne] using hne
            simp [hne', hseen e he]
        by_cases horg : orgInvalid ev.orgId = true
        · -- invalid org: seen recorded, nothing aggregated
          have hstep : stepEvent st ev =
              ⟨st.agg, aupdate (fun l => l ++ [ev.insertId.getD ""]) st.seen ev.name⟩ := by
            simp [stepEvent, hname, hid, hseen ev.name hein, hdup, horg]
          have hsurv : survivesAfter p ev = false := by
            simp [survivesAfter, horg]
          rw [hstep]
          refine ⟨hkeys, hseenstep, ?_⟩
          intro e tbl htbl
          obtain ⟨hnd, hiff, hval⟩ := hagg e tbl htbl
          refine ⟨hnd, ?_, ?_⟩
          · intro o
            rw [survOrgs_snoc]
            simp [hsurv, hiff o]
          · intro o b hb
            simpa [survUrls_snoc, survCount_snoc, hsurv] using hval o b hb
        · -- valid org: seen recorded and bucket bumped
          have hstep : stepEvent st ev =
              ⟨aupdate (bumpOrg (orgStr ev) ev.url) st.agg ev.name,
                aupdate (fun l => l ++ [ev.insertId.getD ""]) st.seen ev.name⟩ := by
            simp [stepEvent, hname, hid, hseen ev.name hein, hdup, horg, orgStr]
          have hsurv : survivesAfter p ev = true := by
            simp only [Bool.not_eq_true] at horg
            simp [survivesAfter, eventIdTruthy, hid, hnotprev, horg]
          rw [hstep]
          refine ⟨by rw [aupdate_keys]; exact hkeys, hseenstep, ?_⟩
          intro e tbl htbl
          by_cases hne : ev.name = e
          · subst hne
            rw [alookup_aupdate_self, hname] at htbl
            injection htbl with htbl
            subst htbl
            exact bumpOrg_components orgs p ev tbl0
              (hagg ev.name tbl0 hname) hsurv
          · rw [alookup_aupdate_ne _ _ _ _ (Ne.symm hne)] at htbl
            obtain ⟨hnd, hiff, hval⟩ := hagg e tbl htbl
            have hne' : (ev.name == e) = false := by
              simpa [beq_eq_false_iff_ne] using hne
            refine ⟨hnd, ?_, ?_⟩
            · intro o
              rw [survOrgs_snoc]
              simp [hne', hiff o]
            · intro o b hb
              simpa [survUrls_snoc, survCount_snoc, hne'] using hval o b hb
    · -- identifier-less event: no duplicate check, no seen update
      by_cases horg : orgInvalid ev.orgId = true
      · have hstep : stepEvent st ev = st := by
          simp [stepEvent, hname, hid, horg]
        have hsurv : survivesAfter p ev = false := by
          simp [survivesAfter, horg]
        rw [hstep]
        refine ⟨hkeys, ?_, ?_⟩
        · intro e he
          rw [prevIds_snoc]
          have hid' : eventIdTruthy ev = false := by
            simpa [eventIdTruthy] using hid
          simp [hid', hseen e he]
        · intro e tbl htbl
          obtain ⟨hnd, hiff, hval⟩ := hagg e tbl htbl
          refine ⟨hnd, ?_, ?_⟩
          · intro o
            rw [survOrgs_snoc]
            simp [hsurv, hiff o]
          · intro o b hb
            simpa [survUrls_snoc, survCount_snoc, hsurv] using hval o b hb
      · have hstep : stepEvent st ev =
            ⟨aupdate (bumpOrg (orgStr ev) ev.url) st.agg ev.name, st.seen⟩ := by
          simp [stepEvent, hname, hid, horg, orgStr]
        have hsurv : survivesAfter p ev = true := by
          simp only [Bool.not_eq_true] at horg
          simp [survivesAfter, eventIdTruthy, hid, horg]
        rw [hstep]
        refine ⟨by rw [aupdate_keys]; exact hkeys, ?_, ?_⟩
        · intro e he
          rw [prevIds_snoc]
          have hid' : eventIdTruthy ev = false := by
            simpa [eventIdTruthy] using hid
          simp [hid', hseen e he]
        · intro e tbl htbl
          by_cases hne : ev.name = e
          · subst hne
            rw [alookup_aupdate_self, hname] at htbl
            injection htbl with htbl
            subst htbl
            exact bumpOrg_components orgs p ev tbl0
              (hagg ev.name tbl0 hname) hsurv
          · rw [alookup_aupdate_ne _ _ _ _ (Ne.symm hne)] at htbl
            obtain ⟨hnd, hiff, hval⟩ := hagg e tbl htbl
            have hne' : (ev.name == e) = false := by
              simpa [beq_eq_false_iff_ne] using hne
            refine ⟨hnd, ?_, ?_⟩
            · intro o
              rw [survOrgs_snoc]
              simp [hne', hiff o]
            · intro o b hb
              simpa [survUrls_snoc, survCount_snoc, hne'] using hval o b hb

/-- The aggregation invariant holds for the final state of a run. -/
theorem runAgg_inv (events orgs : List String) (horgs : orgs.Nodup)
    (stream : List MpEvent) :
    AggInv events orgs stream (runAgg events orgs stream) := by
  rw [runAgg]
  induction stream using List.reverseRecOn with
  | nil => exact initState_inv events orgs horgs
  | append_singleton p ev ih =>
    rw [List.foldl_append, List.foldl_cons, List.foldl_nil]
    exact stepEvent_inv events orgs p _ ev ih

/-- Members of `survGo` come from the scanned list, are named `e` and
carry a valid org. -/
theorem mem_survGo (e : String) : ∀ (l p : List MpEvent) (x : MpEvent),
    x ∈ survGo e p l →
    x ∈ l ∧ (x.name == e && !orgInvalid x.orgId) = true := by
  intro l
  induction l with
  | nil => intro p x hx; simp [survGo] at hx
  | cons ev t ih =>
    intro p x hx
    simp only [survGo] at hx
    by_cases h : (ev.name == e && survivesAfter p ev) = true
    · rw [if_pos h] at hx
      rcases List.mem_cons.mp hx with rfl | hx'
      · refine ⟨List.mem_cons_self _ _, ?_⟩
        rw [Bool.and_eq_true] at h
        have h2 := h.2
        rw [survivesAfter, Bool.and_eq_true] at h2
        rw [h.1, h2.2]
        rfl
      · obtain ⟨hmem, hprop⟩ := ih (p ++ [ev]) x hx'
        exact ⟨List.mem_cons_of_mem _ hmem, hprop⟩
    · rw [if_neg h] at hx
      obtain ⟨hmem, hprop⟩ := ih (p ++ [ev]) x hx
      exact ⟨List.mem_cons_of_mem _ hmem, hprop⟩

/-- Every surviving event of bucket `(e, o)` is one of the bucket's
events. -/
theorem survivors_subset_bucketEvents (stream : List MpEvent) (e o : String) :
    ∀ x ∈ survivors stream e o, x ∈ bucketEvents stream e o := by
  intro x hx
  rw [survivors, List.mem_filter] at hx
  obtain ⟨hx1, hx2⟩ := hx
  obtain ⟨hmem, hprop⟩ := mem_survGo e stream [] x hx1
  rw [bucketEvents, List.mem_filter]
  refine ⟨hmem, ?_⟩
  rw [Bool.and_eq_true] at hprop
  rw [Bool.and_eq_true, Bool.and_eq_true]
  exact ⟨⟨hprop.1, hprop.2⟩, hx2⟩

theorem bucketEvents_snoc (p : List MpEvent) (ev : MpEvent) (e o : String) :
    bucketEvents (p ++ [ev]) e o =
      bucketEvents p e o ++
        (if ev.name == e && !orgInvalid ev.orgId && (orgStr ev == o)
          then [ev] else []) := by
  unfold bucketEvents
  rw [List.filter_append]
  by_cases h : (ev.name == e && !orgInvalid ev.orgId && (orgStr ev == o)) = true
  · simp [h]
  · simp [List.filter_cons, h]

/-- When every id-carrying event named `e` belongs to bucket `(e, o)`,
the bucket's id list is the event name's whole id list. -/
theorem bucket_ids_eq (p : List MpEvent) (e o : String)
    (H : ∀ ev ∈ p, ev.name = e → eventIdTruthy ev = true →
      orgInvalid ev.orgId = false ∧ orgStr ev = o) :
    ((bucketEvents p e o).filter eventIdTruthy).map (fun x => x.insertId.getD "") =
      prevIds p e := by
  unfold bucketEvents prevIds
  rw [List.filter_filter]
  congr 1
  apply List.filter_congr
  intro x hx
  by_cases hn : (x.name == e) = true
  · have hn' : x.name = e := by simpa using hn
    by_cases ht : eventIdTruthy x = true
    · obtain ⟨ho1, ho2⟩ := H x hx hn' ht
      simp [hn, ht, ho1, ho2]
    · simp only [Bool.not_eq_true] at ht
      simp [ht]
  · simp only [Bool.not_eq_true] at hn
    simp [hn]

/-- Under the single-bucket hypothesis, the survivor count is the number
of distinct ids plus the number of identifier-less bucket events. -/
theorem survCount_eq_claimed (e o : String) : ∀ (stream : List MpEvent),
    (∀ ev ∈ stream, ev.name = e → eventIdTruthy ev = true →
      orgInvalid ev.orgId = false ∧ orgStr ev = o) →
    survCount stream e o = claimedBucketCount stream e o := by
  intro stream
  induction stream using List.reverseRecOn with
  | nil => intro _; rfl
  | append_singleton p ev ih =>
    intro H
    have Hp : ∀ ev' ∈ p, ev'.name = e → eventIdTruthy ev' = true →
        orgInvalid ev'.orgId = false ∧ orgStr ev' = o :=
      fun ev' h => H ev' (List.mem_append_left _ h)
    have hids := bucket_ids_eq p e o Hp
    rw [survCount_snoc]
    unfold claimedBucketCount
    rw [bucketEvents_snoc]
    by_cases hn : (ev.name == e) = true
    · have hn' : ev.name = e := by simpa using hn
      by_cases ht : eventIdTruthy ev = true
      · obtain ⟨ho1, ho2⟩ := H ev (List.mem_append_right _ (List.mem_singleton_self ev))
          hn' ht
        have hb : (ev.name == e && !orgInvalid ev.orgId && (orgStr ev == o)) = true := by
          simp [hn, ho1, ho2]
        rw [if_pos hb]
        rw [List.filter_append, List.filter_append]
        have hfid : [ev].filter eventIdTruthy = [ev] := by simp [ht]
        have hfnid : [ev].filter (fun x => !eventIdTruthy x) = [] := by simp [ht]
        rw [hfid, hfnid, List.append_nil, List.map_append, List.toFinset_append]
        simp only [List.map_cons, List.map_nil, List.toFinset_cons, List.toFinset_nil,
          Finset.union_insert, Finset.union_empty]
        have ht' : strTruthy ev.insertId = true := ht
        have hsurvcond : (ev.name == e && survivesAfter p ev && (orgStr ev == o)) =
            !(decide ((ev.insertId.getD "") ∈ prevIds p e)) := by
          rw [survivesAfter, hn']
          simp [eventIdTruthy, ht', ho1, ho2]
        rw [hsurvcond]
        by_cases hdup : (ev.insertId.getD "") ∈ prevIds p e
        · have hmem : (ev.insertId.getD "") ∈
              (((bucketEvents p e o).filter eventIdTruthy).map
                fun x => x.insertId.getD "").toFinset := by
            rw [hids, List.mem_toFinset]
            exact hdup
          rw [ih Hp]
          unfold claimedBucketCount
          rw [Finset.insert_eq_self.mpr hmem]
          simp [hdup]
        · have hmem : (ev.insertId.getD "") ∉
              (((bucketEvents p e o).filter eventIdTruthy).map
                fun x => x.insertId.getD "").toFinset := by
            rw [hids, List.mem_toFinset]
            exact hdup
          rw [ih Hp]
          unfold claimedBucketCount
          rw [Finset.card_insert_of_not_mem hmem]
          simp [hdup]
          omega
      · simp only [Bool.not_eq_true] at ht
        have ht' : strTruthy ev.insertId = false := ht
        have hsurvA : survivesAfter p ev = !orgInvalid ev.orgId := by
          rw [survivesAfter]
          simp [eventIdTruthy, ht']
        by_cases hvo : (!orgInvalid ev.orgId && (orgStr ev == o)) = true
        · rw [Bool.and_eq_true] at hvo
          have hb : (ev.name == e && !orgInvalid ev.orgId && (orgStr ev == o)) = true := by
            simp [hn, hvo.1, hvo.2]
          rw [if_pos hb]
          have hsurvcond : (ev.name == e && survivesAfter p ev && (orgStr ev == o)) =
              true := by
            rw [hsurvA]
            simp [hn, hvo.1, hvo.2]
          rw [hsurvcond, if_pos rfl]
          rw [List.filter_append, List.filter_append]
          have hfid : [ev].filter eventIdTruthy = [] := by simp [ht]
          have hfnid : [ev].filter (fun x => !eventIdTruthy x) = [ev] := by simp [ht]
          rw [hfid, hfnid, List.append_nil, List.length_append, ih Hp]
          unfold claimedBucketCount
          simp
          omega
        · have hvo' : (!orgInvalid ev.orgId && (orgStr ev == o)) = false := by
            simpa using hvo
          have hb : (ev.name == e && !orgInvalid ev.orgId && (orgStr ev == o)) = false := by
            cases hx : orgInvalid ev.orgId with
            | true => simp [hx]
            | false =>
              have hoo : (orgStr ev == o) = false := by
                rw [hx] at hvo'
                simpa using hvo'
              simp [hoo]
          have hsurvcond : (ev.name == e && survivesAfter p ev && (orgStr ev == o)) =
              false := by
            rw [hsurvA]
            cases hx : orgInvalid ev.orgId with
            | true => simp [hx]
            | false =>
              have hoo : (orgStr ev == o) = false := by
                rw [hx] at hvo'
                simpa using hvo'
              simp [hoo]
          rw [hsurvcond]
          have hbne : ¬((ev.name == e && !orgInvalid ev.orgId && (orgStr ev == o)) = true) := by
            rw [hb]
            simp
          rw [if_neg hbne, List.append_nil, ih Hp]
          unfold claimedBucketCount
          simp
    · simp only [Bool.not_eq_true] at hn
      rw [if_neg (by simp [hn]), if_neg (by simp [hn])]
      rw [List.append_nil]
      exact Nat.add_zero _ ▸ ih Hp

/-- Flush emits one `(event, org, updates)` triple per org table entry
of each configured metric. -/
theorem mem_flushOutputs (config : List (String × PropMapping)) (agg : Agg)
    (e : String) (m : PropMapping) (tbl : OrgTable) (o : String) (b : Bucket)
    (hc : (e, m) ∈ config) (ha : alookup agg e = some tbl) (hb : (o, b) ∈ tbl) :
    (e, o, propertyUpdates m b) ∈ flushOutputs config agg := by
  rw [flushOutputs, List.mem_flatten]
  refine ⟨(tbl.map fun ob => (e, ob.1, propertyUpdates m ob.2)), ?_, ?_⟩
  · apply List.mem_map.mpr
    refine ⟨(e, m), hc, ?_⟩
    simp [ha]
  · exact List.mem_map.mpr ⟨(o, b), hb, rfl⟩

/-- C4: the claim is false on the code.  Deduplication is per event
name across all entities, and runs before the entity-validity check: the
stream `[(api-call, id X, org A), (api-call, id X, org B),
(api-call, no id, org B)]` leaves bucket `(api-call, B)` with count 1 —
its id-carrying event is discarded because id X was already seen under
org A — while the claim's formula (distinct ids among the bucket's
id-carrying events plus its id-less events) gives 1 + 1 = 2. -/
theorem c4_counterexample :
    alookup ((runAgg ["api-call"] ["A", "B"]
        [⟨"api-call", some "X", some "A", none⟩,
         ⟨"api-call", some "X", some "B", none⟩,
         ⟨"api-call", none, some "B", none⟩]).agg) "api-call" =
      some [("A", ⟨[], 1⟩), ("B", ⟨[], 1⟩)] ∧
    claimedBucketCount
        [⟨"api-call", some "X", some "A", none⟩,
         ⟨"api-call", some "X", some "B", none⟩,
         ⟨"api-call", none, some "B", none⟩] "api-call" "B" = 2 ∧
    (1 : Nat) ≠ 2 := by decide

/-- C4 (amended): every final bucket `(e, o)` holds exactly the number
of its surviving events — an id-carrying event survives iff its id was
not seen earlier in ANY event of the same event name (across all
entities, and ids are recorded even for events later discarded for an
invalid entity), while an identifier-less event always survives when its
entity is valid — together with the surviving events' truthy urls; and
when every id-carrying event of the name belongs to that one bucket, the
count equals the number of distinct ids plus identifier-less events, as
the claim states. -/
theorem c4_dedup_aggregation :
    (∀ (events orgs : List String), orgs.Nodup →
      ∀ (stream : List MpEvent) (e : String) (tbl : OrgTable) (o : String)
        (b : Bucket),
        alookup (runAgg events orgs stream).agg e = some tbl →
        alookup tbl o = some b →
        b.count = survCount stream e o ∧ b.urls = survUrls stream e o) ∧
    (∀ (stream : List MpEvent) (e o : String),
      (∀ ev ∈ stream, ev.name = e → eventIdTruthy ev = true →
        orgInvalid ev.orgId = false ∧ orgStr ev = o) →
      survCount stream e o = claimedBucketCount stream e o) := by
  constructor
  · intro events orgs horgs stream e tbl o b htbl hb
    obtain ⟨_, _, hagg⟩ := runAgg_inv events orgs horgs stream
    obtain ⟨_, _, hval⟩ := hagg e tbl htbl
    rw [hval o b hb]
    exact ⟨rfl, rfl⟩
  · exact fun stream e o H => survCount_eq_claimed e o stream H

/-- Witness for C4 (amended): a one-event run's bucket matches the
survivor characterization, and a same-bucket duplicated id counts once. -/
theorem c4_witness :
    ((Bucket.mk [] 1).count =
        survCount [⟨"api-call", some "X", some "A", none⟩] "api-call" "A" ∧
      (Bucket.mk [] 1).urls =
        survUrls [⟨"api-call", some "X", some "A", none⟩] "api-call" "A") ∧
    survCount [⟨"api-call", some "X", some "A", none⟩,
        ⟨"api-call", some "X", some "A", none⟩] "api-call" "A" =
      claimedBucketCount [⟨"api-call", some "X", some "A", none⟩,
        ⟨"api-call", some "X", some "A", none⟩] "api-call" "A" :=
  ⟨c4_dedup_aggregation.1 ["api-call"] ["A"] (by decide)
      [⟨"api-call", some "X", some "A", none⟩] "api-call"
      [("A", ⟨[], 1⟩)] "A" ⟨[], 1⟩ (by decide) (by decide),
   c4_dedup_aggregation.2 [⟨"api-call", some "X", some "A", none⟩,
      ⟨"api-call", some "X", some "A", none⟩] "api-call" "A" (by decide)⟩

/-- C7: a pre-seeded entity with zero matching events still yields an
explicit flush triple carrying count 0 for each single-property metric,
rather than being absent from the flush output. -/
theorem c7_preseeded_zero_emitted (config : List (String × PropMapping))
    (orgs : List String) (horgs : orgs.Nodup) (stream : List MpEvent)
    (o : String) (ho : o ∈ orgs) (e prop : String)
    (hmap : (e, PropMapping.direct prop) ∈ config)
    (hzero : bucketEvents stream e o = []) :
    (e, o, [(prop, 0)]) ∈
      flushOutputs config (runAgg (config.map Prod.fst) orgs stream).agg := by
  obtain ⟨hkeys, _, hagg⟩ := runAgg_inv (config.map Prod.fst) orgs horgs stream
  have he : e ∈ config.map Prod.fst :=
    List.mem_map.mpr ⟨(e, .direct prop), hmap, rfl⟩
  have hsome :
      (alookup (runAgg (config.map Prod.fst) orgs stream).agg e).isSome = true := by
    rw [alookup_isSome_iff, hkeys]
    exact he
  obtain ⟨tbl, htbl⟩ := Option.isSome_iff_exists.mp hsome
  obtain ⟨_, hiff, hval⟩ := hagg e tbl htbl
  obtain ⟨b, hb⟩ := Option.isSome_iff_exists.mp ((hiff o).mpr (Or.inl ho))
  have hsnil : survivors stream e o = [] := by
    cases hs : survivors stream e o with
    | nil => rfl
    | cons x t =>
      have hx : x ∈ bucketEvents stream e o :=
        survivors_subset_bucketEvents stream e o x (hs ▸ List.mem_cons_self x t)
      rw [hzero] at hx
      simp at hx
  have hb0 : b = ⟨[], 0⟩ := by
    rw [hval o b hb]
    simp [survCount, survUrls, hsnil]
  have hout := mem_flushOutputs config _ e (.direct prop) tbl o b hmap htbl
    (alookup_mem tbl o b hb)
  rw [hb0] at hout
  simpa [propertyUpdates] using hout

/-- Witness for C7: with known org "A" and no events at all, the flush
still emits `api_calls_past_90_days = 0` for org "A". -/
theorem c7_witness :
    ("api-call", "A", [("api_calls_past_90_days", 0)]) ∈
      flushOutputs MIXPANEL_CONFIG
        (runAgg (MIXPANEL_CONFIG.map Prod.fst) ["A"] []).agg :=
  c7_preseeded_zero_emitted MIXPANEL_CONFIG ["A"] (by decide) [] "A" (by decide)
    "api-call" "api_calls_past_90_days" (by decide) (by decide)

/-- C8: for a metric configured with keyword→property rules, the flush
emits, per rule and independently of the other rules, the number of
collected attribute samples containing that rule's keyword as a
case-sensitive substring; on samples
`["/app/dashboard", "/app/billing", "/app/dashboard/x"]` the rule
`dashboard → propA` emits 2, and one sample may count toward several
rules. -/
theorem c8_keyword_subcounts :
    (∀ (config : List (String × PropMapping)) (agg : Agg) (e : String)
        (rules : List (String × String)) (tbl : OrgTable) (o : String)
        (b : Bucket),
        (e, PropMapping.keywords rules) ∈ config →
        alookup agg e = some tbl → alookup tbl o = some b →
        (e, o, rules.map fun kp => (kp.2, countContains kp.1 b.urls)) ∈
          flushOutputs config agg) ∧
    countContains "dashboard" ["/app/dashboard", "/app/billing", "/app/dashboard/x"] = 2 ∧
    propertyUpdates (.keywords [("dash", "p1"), ("board", "p2")]) ⟨["/dashboard"], 1⟩ =
      [("p1", 1), ("p2", 1)] := by
  refine ⟨?_, by decide, by decide⟩
  intro config agg e rules tbl o b hc ha hb
  have hout := mem_flushOutputs config agg e (.keywords rules) tbl o b hc ha
    (alookup_mem tbl o b hb)
  simpa [propertyUpdates] using hout

/-- Witness for C8 on the spec's example, produced by an actual run:
three page-view events for org "A" with the example urls yield the
emitted pair `(dashboard_views_past_90_days, 2)`. -/
theorem c8_witness :
    ("page-view", "A", [("dashboard", "dashboard_views_past_90_days")].map
        fun kp => (kp.2, countContains kp.1
          (Bucket.mk ["/app/dashboard", "/app/billing", "/app/dashboard/x"] 3).urls)) ∈
      flushOutputs MIXPANEL_CONFIG
        (runAgg (MIXPANEL_CONFIG.map Prod.fst) ["A"]
          [⟨"page-view", none, some "A", some "/app/dashboard"⟩,
           ⟨"page-view", none, some "A", some "/app/billing"⟩,
           ⟨"page-view", none, some "A", some "/app/dashboard/x"⟩]).agg :=
  c8_keyword_subcounts.1 MIXPANEL_CONFIG _ "page-view"
    [("dashboard", "dashboard_views_past_90_days")]
    [("A", ⟨["/app/dashboard", "/app/billing", "/app/dashboard/x"], 3⟩)] "A"
    ⟨["/app/dashboard", "/app/billing", "/app/dashboard/x"], 3⟩
    (by decide) (by decide) (by decide)

end HubspotSync
